import Mathlib

/-! taskbot: the in-memory task store and the command router

A shallow embedding of `storage/storage.go` (package `storage`) and of the
command handling of `bot.go`, and theorems about them.

Modelling conventions.

* Go `int64` values are integers; the only arithmetic in the store is the
  atomic `nextID.Add(1)`, which wraps around at `2^63` and is modelled by
  `wrapInt64`.
* The Go map `map[int64]*Task` is an association list with pairwise distinct
  keys (`AList`).  A write `s.tasks[id] = t` is `AList.insert`, `delete` is
  `AList.erase`, and an assignment through the stored pointer
  (`task.assigned = ...`) is `AList.replace`: the map itself is not touched,
  only the record behind the key.
* The iteration order of a Go map is unspecified.  The queries return the
  tasks in the order of the association list; every theorem about a query is
  stated on membership and multiplicity, which do not depend on that order.
* The operations are modelled as sequential state transformers
  `Storage → ... → Storage × result`.  The mutex and the atomic counter only
  matter under concurrency: concurrent `NewTask` calls are modelled apart, as
  interleavings of the two atomic actions of each call (`Conc`).
* A nil `error` / nil pointer is `none`.
-/

namespace Taskbot

/-- Two's-complement wrap-around of a signed 64-bit integer. -/
def wrapInt64 (x : Int) : Int :=
  (x + 9223372036854775808) % 18446744073709551616 - 9223372036854775808

/-- The two error values of the package (`errNotFound`, `errNotYours`). -/
inductive StoreError where
  | errNotFound
  | errNotYours
deriving DecidableEq, Repr

/-- The text carried by each error value (`err.Error()`). -/
def StoreError.Error : StoreError → String
  | .errNotFound => "Задача не найдена"
  | .errNotYours => "Задача не на вас"

/-- The record `Task` of storage.go. -/
structure Task where
  id : Int
  name : String
  ownerID : Int
  ownerUsername : String
  assigneeID : Int
  assigneeUsername : String
  assigned : Bool
deriving DecidableEq, Repr

/-- The constructor `NewTask(id, name, ownerID, ownerUsername)`: the assignee
fields keep their Go zero values. -/
def NewTask (id : Int) (name : String) (ownerID : Int) (ownerUsername : String) : Task :=
  { id := id, name := name, ownerID := ownerID, ownerUsername := ownerUsername,
    assigneeID := 0, assigneeUsername := "", assigned := false }

/-- The record `TaskData` of storage.go; every field defaults to its Go zero
value, so `{ Err := some e }` is the Go literal `TaskData{Err: e}`. -/
structure TaskData where
  ID : Int := 0
  Name : String := ""
  OwnerID : Int := 0
  OwnerUsername : String := ""
  AssigneeID : Int := 0
  AssigneeUsername : String := ""
  Assigned : Bool := false
  Err : Option StoreError := none
  OldAssigneeID : Option Int := none
  OldAssigneeUsername : Option String := none
deriving DecidableEq, Repr

/-- The method `(*Task).ID`. -/
def Task.ID (t : Task) : Int := t.id

/-- The method `(*Task).Info`. -/
def Task.Info (t : Task) : TaskData :=
  { ID := t.id, Name := t.name, OwnerID := t.ownerID, OwnerUsername := t.ownerUsername,
    AssigneeID := t.assigneeID, AssigneeUsername := t.assigneeUsername,
    Assigned := t.assigned }

/-- The record `Storage`: the id counter and the task map. -/
structure Storage where
  nextID : Int
  tasks : AList (fun _ : Int => Task)
deriving DecidableEq

/-- The constructor `NewStorage()`: an empty map and the counter at 0. -/
def NewStorage : Storage := { nextID := 0, tasks := ∅ }

namespace Storage

/-- The map read `s.tasks[k]` (with its `ok` flag as `Option`). -/
def get (s : Storage) (k : Int) : Option Task := s.tasks.lookup k

/-- The method `Storage.NewTask`. -/
def NewTask (s : Storage) (name : String) (ownerID : Int) (ownerUsername : String) :
    Storage × Int :=
  let id := wrapInt64 (s.nextID + 1)
  ({ nextID := id, tasks := s.tasks.insert id (Taskbot.NewTask id name ownerID ownerUsername) },
    id)

/-- The method `Storage.AssignTask`. -/
def AssignTask (s : Storage) (taskID assigneeID : Int) (assigneeUsername : String) :
    Storage × TaskData :=
  match s.tasks.lookup taskID with
  | none => (s, { Err := some StoreError.errNotFound })
  | some task =>
    let oldAssigneeID := task.assigneeID
    let oldAssigneeUsername := task.assigneeUsername
    let task1 : Task :=
      { task with assigneeID := assigneeID, assigneeUsername := assigneeUsername,
                  assigned := true }
    ({ s with tasks := s.tasks.replace taskID task1 },
      { Name := task1.name, OwnerID := task1.ownerID, OwnerUsername := task1.ownerUsername,
        OldAssigneeID := some oldAssigneeID,
        OldAssigneeUsername := some oldAssigneeUsername })

/-- The method `Storage.UnassignTask`. -/
def UnassignTask (s : Storage) (taskID assigneeID : Int) : Storage × TaskData :=
  match s.tasks.lookup taskID with
  | none => (s, { Err := some StoreError.errNotFound })
  | some task =>
    if task.assigneeID ≠ assigneeID then
      (s, { Err := some StoreError.errNotYours })
    else
      let task1 : Task :=
        { task with assigned := false, assigneeID := 0, assigneeUsername := "" }
      ({ s with tasks := s.tasks.replace taskID task1 },
        { Name := task1.name, OwnerID := task1.ownerID,
          OwnerUsername := task1.ownerUsername })

/-- The method `Storage.ResolveTask`. -/
def ResolveTask (s : Storage) (taskID assigneeID : Int) : Storage × TaskData :=
  match s.tasks.lookup taskID with
  | none => (s, { Err := some StoreError.errNotFound })
  | some task =>
    if task.assigneeID ≠ assigneeID then
      (s, { Err := some StoreError.errNotYours })
    else
      ({ s with tasks := s.tasks.erase taskID },
        { Name := task.name, OwnerID := task.ownerID, OwnerUsername := task.ownerUsername })

/-- The method `Storage.AllTasks`. -/
def AllTasks (s : Storage) : List Task :=
  s.tasks.entries.map Sigma.snd

/-- The method `Storage.OwnedTasks`. -/
def OwnedTasks (s : Storage) (ownerID : Int) : List Task :=
  (s.tasks.entries.map Sigma.snd).filter (fun task => decide (task.ownerID = ownerID))

/-- The method `Storage.AssignedTasks`. -/
def AssignedTasks (s : Storage) (assigneeID : Int) : List Task :=
  (s.tasks.entries.map Sigma.snd).filter (fun task => decide (task.assigneeID = assigneeID))

end Storage

/-- One call of a store operation, with its arguments. -/
inductive Op where
  | newTask (name : String) (ownerID : Int) (ownerUsername : String)
  | assignTask (taskID assigneeID : Int) (assigneeUsername : String)
  | unassignTask (taskID assigneeID : Int)
  | resolveTask (taskID assigneeID : Int)
  | allTasks
  | ownedTasks (ownerID : Int)
  | assignedTasks (assigneeID : Int)
deriving DecidableEq, Repr

/-- What a call returns: an id (`NewTask`), a `TaskData` (the three
mutations) or a list of tasks (the three queries). -/
inductive Ret where
  | id (n : Int)
  | data (d : TaskData)
  | tasks (l : List Task)
deriving DecidableEq, Repr

/-- Perform one call on a store. -/
def step (s : Storage) : Op → Storage × Ret
  | .newTask name o u => ((s.NewTask name o u).1, .id (s.NewTask name o u).2)
  | .assignTask t a u => ((s.AssignTask t a u).1, .data (s.AssignTask t a u).2)
  | .unassignTask t a => ((s.UnassignTask t a).1, .data (s.UnassignTask t a).2)
  | .resolveTask t a => ((s.ResolveTask t a).1, .data (s.ResolveTask t a).2)
  | .allTasks => (s, .tasks s.AllTasks)
  | .ownedTasks o => (s, .tasks (s.OwnedTasks o))
  | .assignedTasks a => (s, .tasks (s.AssignedTasks a))

/-- The store after a sequence of calls. -/
def run (s : Storage) : List Op → Storage
  | [] => s
  | op :: ops => run (step s op).1 ops

/-- The ids returned by the `NewTask` calls of a sequence of calls, in call
order: entry `k - 1` is what the `k`-th call to `NewTask` returned. -/
def newTaskReturns (s : Storage) : List Op → List Int
  | [] => []
  | .newTask name o u :: ops =>
    (s.NewTask name o u).2 :: newTaskReturns (s.NewTask name o u).1 ops
  | op :: ops => newTaskReturns (step s op).1 ops

/-- The number of `NewTask` calls in a sequence of calls. -/
def countNewTask : List Op → Nat
  | [] => 0
  | .newTask _ _ _ :: ops => countNewTask ops + 1
  | _ :: ops => countNewTask ops

/-- A store state is reachable when some sequence of calls produces it from
`NewStorage()`. -/
def Reachable (s : Storage) : Prop := ∃ ops : List Op, run NewStorage ops = s

/-- What holds of every record of a reachable store: it sits under its own id,
and while unassigned its assignee fields have their zero values. -/
def TaskInv (k : Int) (t : Task) : Prop :=
  t.id = k ∧ (t.assigned = false → t.assigneeID = 0 ∧ t.assigneeUsername = "")

/-- The invariant `TaskInv` on every entry of the map. -/
def Storage.Inv (s : Storage) : Prop := ∀ k t, s.get k = some t → TaskInv k t

/-- Every `AssignTask` call of the sequence is given a non-zero assignee id. -/
def assignIdsNonzero (ops : List Op) : Prop :=
  ∀ taskID assigneeID assigneeUsername,
    Op.assignTask taskID assigneeID assigneeUsername ∈ ops → assigneeID ≠ 0

/-- Every record flagged as assigned has a non-zero assignee id. -/
def Storage.AssignedNonzero (s : Storage) : Prop :=
  ∀ k t, s.get k = some t → t.assigned = true → t.assigneeID ≠ 0

/-- The fields of a record that no operation writes after creation. -/
def Task.static (t : Task) : Int × String × Int × String :=
  (t.id, t.name, t.ownerID, t.ownerUsername)

/-- The counter is non-negative and every key lies between 1 and the counter. -/
def Storage.KeysBounded (s : Storage) : Prop :=
  0 ≤ s.nextID ∧ ∀ k t, s.get k = some t → 1 ≤ k ∧ k ≤ s.nextID

/-- No task with id `t` is stored, and the three mutations on `t` return
NotFound and leave the store as it is. -/
def Storage.Absent (s : Storage) (t : Int) : Prop :=
  s.get t = none ∧ (∀ task ∈ s.AllTasks, task.id ≠ t) ∧
  (∀ a u, s.AssignTask t a u = (s, { Err := some StoreError.errNotFound })) ∧
  (∀ a, s.UnassignTask t a = (s, { Err := some StoreError.errNotFound })) ∧
  (∀ a, s.ResolveTask t a = (s, { Err := some StoreError.errNotFound }))

/-- The record `AssignTask` leaves behind the key. -/
def Task.assignTo (task : Task) (assigneeID : Int) (assigneeUsername : String) : Task :=
  { task with assigneeID := assigneeID, assigneeUsername := assigneeUsername, assigned := true }

/-- The record a successful `UnassignTask` leaves behind the key. -/
def Task.cleared (task : Task) : Task :=
  { task with assigned := false, assigneeID := 0, assigneeUsername := "" }

/-! ## The command router (`bot.go`)

The package-level store `storage` is passed explicitly.  `sendMsg` appends to
the list of outbound messages; a delivery failure is only logged by the
source and has no effect on the router.  A handler returns `none` where the
Go code would stop with a run-time panic (index out of range, nil pointer
dereference).  The records of the Telegram library are reduced to the fields
`handleUpdate` reads; the pointers among them may be nil.

Go strings are byte sequences; the inbound text is valid UTF-8 and every
separator, command name and digit the router looks for is ASCII, so cutting
and comparing by characters agrees with cutting and comparing by bytes. -/

/-- The reply `errWrongFormat`. -/
def errWrongFormat : String := "Неверный формат команды."

/-- The reply `errNoTasks`. -/
def errNoTasks : String := "Нет задач"

/-- One call `sendMsg(bot, chatID, text)`. -/
structure Sent where
  chatID : Int
  text : String
deriving DecidableEq, Repr

/-- Cut a text at its first space character: what stands before it and what
stands after it; `none` when there is no space. -/
def cutAtSpace : List Char → Option (List Char × List Char)
  | [] => none
  | c :: cs =>
    if c = ' ' then some ([], cs)
    else
      match cutAtSpace cs with
      | none => none
      | some (a, b) => some (c :: a, b)

/-- The library call `strings.SplitN(msg, " ", 2)`: the text itself when it has
no space, otherwise the two pieces around its first space. -/
def SplitN (msg : String) : List String :=
  match cutAtSpace msg.data with
  | none => [msg]
  | some (a, b) => [String.mk a, String.mk b]

/-- The library call `strings.HasPrefix(s, pre)`. -/
def HasPrefix (s pre : String) : Bool := pre.data.isPrefixOf s.data

/-- The library call `strings.TrimPrefix(s, pre)`. -/
def TrimPrefix (s pre : String) : String :=
  if HasPrefix s pre then String.mk (s.data.drop pre.data.length) else s

/-- Read a run of decimal digits, most significant first; `none` on any other
character. -/
def parseDigits (acc : Nat) : List Char → Option Nat
  | [] => some acc
  | c :: cs => if c.isDigit then parseDigits (acc * 10 + (c.toNat - 48)) cs else none

/-- The library call `strconv.ParseInt(s, 10, 64)`, with `none` for a non-nil
error: an optional sign, then at least one decimal digit and nothing else,
and a value that fits a signed 64-bit integer. -/
def ParseInt (s : String) : Option Int :=
  match s.data with
  | [] => none
  | c :: cs =>
    let neg : Bool := c = '-'
    let digits : List Char := if c = '+' ∨ c = '-' then cs else c :: cs
    match digits with
    | [] => none
    | d :: ds =>
      match parseDigits 0 (d :: ds) with
      | none => none
      | some un =>
        if !neg && un ≥ 9223372036854775808 then none
        else if neg && un > 9223372036854775808 then none
        else some (if neg then -(un : Int) else (un : Int))

/-- The function `parseTaskID`. -/
def parseTaskID (cmd pre : String) : Option Int :=
  ParseInt (TrimPrefix cmd pre)

/-- The verb `%d` of `fmt.Sprintf` on an `int64`. -/
def formatInt (n : Int) : String := toString n

/-- The call `sort.Slice(tasks, func(i, j) { tasks[i].ID() < tasks[j].ID() })`.
The library sort is not stable, but on tasks with pairwise distinct ids, as
in every reachable store, the sorted list is unique; it is computed here by
insertion. -/
def sortByID (tasks : List Task) : List Task :=
  tasks.insertionSort (fun a b => a.ID ≤ b.ID)

/-- The loop `for i, task := range tasks` shared by the three list builders:
`"\n\n"` before every entry but the first, then the entry, written to the
string builder `sb`. -/
def writeTasks (entry : Task → String) : List Task → Nat → String → String
  | [], _, sb => sb
  | task :: rest, i, sb =>
    writeTasks entry rest (i + 1) ((if i > 0 then sb ++ "\n\n" else sb) ++ entry task)

/-- The first line of every entry, without its line break:
`Sprintf("%d. %s by @%s", info.ID, info.Name, info.OwnerUsername)`. -/
def entryHead (task : Task) : String :=
  formatInt task.Info.ID ++ ". " ++ task.Info.Name ++ " by @" ++ task.Info.OwnerUsername

/-- What the loop body of `buildTasks` writes for one task. -/
def tasksEntry (userID : Int) (task : Task) : String :=
  (entryHead task ++ "\n") ++
    (if task.Info.Assigned = false then "/assign_" ++ formatInt task.ID
     else if task.Info.AssigneeID = userID then
       "assignee: я\n" ++ ("/unassign_" ++ formatInt task.ID ++ " /resolve_" ++ formatInt task.ID)
     else "assignee: @" ++ task.Info.AssigneeUsername)

/-- What the loop body of `buildMyTasks` writes for one task. -/
def myTasksEntry (task : Task) : String :=
  (entryHead task ++ "\n") ++
    ("/unassign_" ++ formatInt task.Info.ID ++ " /resolve_" ++ formatInt task.Info.ID)

/-- What the loop body of `buildOwnedTasks` writes for one task. -/
def ownedTasksEntry (task : Task) : String :=
  (entryHead task ++ "\n") ++ ("/assign_" ++ formatInt task.Info.ID)

/-- The function `buildTasks`. -/
def buildTasks (s : Storage) (userID : Int) : String :=
  let tasks := s.AllTasks
  if tasks.length = 0 then errNoTasks
  else writeTasks (tasksEntry userID) (sortByID tasks) 0 ""

/-- The function `buildMyTasks`. -/
def buildMyTasks (s : Storage) (userID : Int) : String :=
  let tasks := s.AssignedTasks userID
  if tasks.length = 0 then errNoTasks
  else writeTasks myTasksEntry (sortByID tasks) 0 ""

/-- The function `buildOwnedTasks`. -/
def buildOwnedTasks (s : Storage) (userID : Int) : String :=
  let tasks := s.OwnedTasks userID
  if tasks.length = 0 then errNoTasks
  else writeTasks ownedTasksEntry (sortByID tasks) 0 ""

/-- The function `handleAssign`. -/
def handleAssign (s : Storage) (chatID userID taskID : Int) (username : String) :
    Option (Storage × List Sent) :=
  let res := s.AssignTask taskID userID username
  match res.2.Err with
  | some err => some (res.1, [⟨chatID, err.Error⟩])
  | none =>
    let reply : Sent := ⟨chatID, "Задача \"" ++ res.2.Name ++ "\" назначена на вас"⟩
    match res.2.OldAssigneeID with
    | none => none
    | some oldAssigneeID =>
      if oldAssigneeID ≠ 0 ∧ oldAssigneeID ≠ userID then
        some (res.1, [reply,
          ⟨oldAssigneeID, "Задача \"" ++ res.2.Name ++ "\" назначена на @" ++ username⟩])
      else if res.2.OwnerID ≠ userID then
        some (res.1, [reply,
          ⟨res.2.OwnerID, "Задача \"" ++ res.2.Name ++ "\" назначена на @" ++ username⟩])
      else some (res.1, [reply])

/-- The function `handleUnassign`. -/
def handleUnassign (s : Storage) (chatID userID taskID : Int) :
    Option (Storage × List Sent) :=
  let res := s.UnassignTask taskID userID
  match res.2.Err with
  | some err => some (res.1, [⟨chatID, err.Error⟩])
  | none =>
    some (res.1, [⟨chatID, "Принято"⟩,
      ⟨res.2.OwnerID, "Задача \"" ++ res.2.Name ++ "\" осталась без исполнителя"⟩])

/-- The function `handleResolve`. -/
def handleResolve (s : Storage) (chatID userID taskID : Int) (username : String) :
    Option (Storage × List Sent) :=
  let res := s.ResolveTask taskID userID
  match res.2.Err with
  | some err => some (res.1, [⟨chatID, err.Error⟩])
  | none =>
    let reply : Sent := ⟨chatID, "Задача \"" ++ res.2.Name ++ "\" выполнена"⟩
    if res.2.OwnerID ≠ userID then
      some (res.1, [reply,
        ⟨res.2.OwnerID, "Задача \"" ++ res.2.Name ++ "\" выполнена @" ++ username⟩])
    else some (res.1, [reply])

/-- The `switch` statement of `handleUpdate`, on the command `cmd` and the
argument `arg` cut from the message. -/
def dispatch (s : Storage) (chatID userID : Int) (username cmd arg : String) :
    Option (Storage × List Sent) :=
  if cmd = "/tasks" then some (s, [⟨chatID, buildTasks s userID⟩])
  else if cmd = "/new" then
    if arg = "" then some (s, [⟨chatID, errWrongFormat⟩])
    else
      let r := s.NewTask arg userID username
      some (r.1, [⟨chatID, "Задача \"" ++ arg ++ "\" создана, id=" ++ formatInt r.2⟩])
  else if HasPrefix cmd "/assign_" then
    match parseTaskID cmd "/assign_" with
    | none => some (s, [⟨chatID, errWrongFormat⟩])
    | some taskID => handleAssign s chatID userID taskID username
  else if HasPrefix cmd "/unassign_" then
    match parseTaskID cmd "/unassign_" with
    | none => some (s, [⟨chatID, errWrongFormat⟩])
    | some taskID => handleUnassign s chatID userID taskID
  else if HasPrefix cmd "/resolve_" then
    match parseTaskID cmd "/resolve_" with
    | none => some (s, [⟨chatID, errWrongFormat⟩])
    | some taskID => handleResolve s chatID userID taskID username
  else if cmd = "/my" then some (s, [⟨chatID, buildMyTasks s userID⟩])
  else if cmd = "/owner" then some (s, [⟨chatID, buildOwnedTasks s userID⟩])
  else some (s, [⟨chatID, errWrongFormat⟩])

/-- The record `tgbotapi.Chat`, reduced to the field the router reads. -/
structure Chat where
  ID : Int
deriving DecidableEq, Repr

/-- The record `tgbotapi.User`, reduced to the fields the router reads. -/
structure User where
  ID : Int
  UserName : String
deriving DecidableEq, Repr

/-- The record `tgbotapi.Message`, reduced to the fields the router reads;
`Chat` and `From` are pointers in the library and may be nil. -/
structure Message where
  Chat : Option Chat
  From : Option User
  Text : String
deriving DecidableEq, Repr

/-- The record `tgbotapi.Update`, reduced to its `Message` pointer. -/
structure Update where
  Message : Option Message
deriving DecidableEq, Repr

/-- The update that carries the inbound tuple
`(chatID, senderID, senderUsername, text)`. -/
def inbound (chatID senderID : Int) (senderUsername text : String) : Update :=
  { Message := some { Chat := some { ID := chatID },
                      From := some { ID := senderID, UserName := senderUsername },
                      Text := text } }

/-- The function `handleUpdate`: read `update.Message.Chat.ID`,
`update.Message.From.ID`, `update.Message.From.UserName` and
`update.Message.Text` (a nil pointer on the way is a panic), cut the text into
`parts`, take `parts[0]` as the command and `parts[1]`, when there is one, as
the argument, then run the `switch`. -/
def handleUpdate (s : Storage) (update : Update) : Option (Storage × List Sent) :=
  match update.Message with
  | none => none
  | some message =>
    match message.Chat with
    | none => none
    | some chat =>
      let chatID := chat.ID
      match message.From with
      | none => none
      | some sender =>
        let userID := sender.ID
        let username := sender.UserName
        let msg := message.Text
        let parts := SplitN msg
        match parts[0]? with
        | none => none
        | some cmd =>
          match (if parts.length > 1 then parts[1]? else some "") with
          | none => none
          | some arg => dispatch s chatID userID username cmd arg

/-- The guard of the receive loop of `startTaskBot`: an update without a
message is skipped, every other update is handed to `handleUpdate`. -/
def receive (s : Storage) (update : Update) : Option (Storage × List Sent) :=
  match update.Message with
  | none => some (s, [])
  | some _ => handleUpdate s update

/-- The command of a message: `parts[0]`. -/
def command (msg : String) : String := (SplitN msg).headD ""

/-- The argument of a message: `parts[1]` when the message has a space, the
empty string otherwise. -/
def argument (msg : String) : String := ((SplitN msg).drop 1).headD ""

/-! ## Concurrent `NewTask` calls

`Storage.NewTask` consists of two actions that are atomic with respect to
every other goroutine: `id := s.nextID.Add(1)` on the `atomic.Int64`, and the
insert `s.tasks[id] = NewTask(...)` under the write lock `tasksMu`.  N
goroutines calling `NewTask` at the same time perform these 2N actions in any
order in which each call does its `Add` before its insert. -/

/-- The arguments of one `NewTask` call. -/
structure Call where
  name : String
  ownerID : Int
  ownerUsername : String
deriving DecidableEq, Repr

/-- Take the element at position `i` out of a list. -/
def pick {α : Type} : List α → Nat → Option (α × List α)
  | [], _ => none
  | x :: xs, 0 => some (x, xs)
  | x :: xs, i + 1 =>
    match pick xs i with
    | none => none
    | some (y, ys) => some (y, x :: ys)

/-- The store together with the goroutines inside `NewTask`: the calls that
have not yet done their `Add` (`waiting`), the calls that hold an id and have
not yet done their insert (`pending`), and the calls that have returned,
with the id each returned (`returned`). -/
structure Conc where
  store : Storage
  waiting : List Call
  pending : List (Int × Call)
  returned : List (Int × Call)

/-- One atomic action of one goroutine: the `i`-th waiting call does
`id := s.nextID.Add(1)`, or the `j`-th pending call does its locked insert
and returns its id. -/
inductive Event where
  | add (i : Nat)
  | insert (j : Nat)
deriving DecidableEq, Repr

/-- Perform one atomic action; an event that names no goroutine changes
nothing. -/
def Conc.step (c : Conc) : Event → Conc
  | .add i =>
    match pick c.waiting i with
    | none => c
    | some (call, rest) =>
      let id := wrapInt64 (c.store.nextID + 1)
      { store := { nextID := id, tasks := c.store.tasks },
        waiting := rest,
        pending := (id, call) :: c.pending,
        returned := c.returned }
  | .insert j =>
    match pick c.pending j with
    | none => c
    | some (p, rest) =>
      { store :=
          { nextID := c.store.nextID,
            tasks := c.store.tasks.insert p.1
              (NewTask p.1 p.2.name p.2.ownerID p.2.ownerUsername) },
        waiting := c.waiting,
        pending := rest,
        returned := p :: c.returned }

/-- Perform a sequence of atomic actions: one interleaving. -/
def Conc.run (c : Conc) : List Event → Conc
  | [] => c
  | e :: es => (c.step e).run es

/-- The goroutines `calls` about to call `NewTask` on the store `s`. -/
def Conc.start (s : Storage) (calls : List Call) : Conc :=
  { store := s, waiting := calls, pending := [], returned := [] }

/-- Every call has returned. -/
def Conc.finished (c : Conc) : Prop := c.waiting = [] ∧ c.pending = []

/-- What holds of the goroutines at every point of an interleaving that
started with the calls `calls` on a store whose counter stood at the wrapped
value of `c0`: the ids issued so far (to the pending and the returned calls)
are the next ids after `c0`, pairwise distinct. -/
def Conc.IdsInv (c0 : Nat) (calls : List Call) (c : Conc) : Prop :=
  (c.waiting ++ (c.pending ++ c.returned).map Prod.snd).Perm calls ∧
  c.store.nextID = wrapInt64 ((c0 : Int) + ((c.pending ++ c.returned).length : Int)) ∧
  (∀ p ∈ c.pending ++ c.returned, ∃ j : Nat,
    1 ≤ j ∧ j ≤ (c.pending ++ c.returned).length ∧ p.1 = wrapInt64 ((c0 : Int) + (j : Int))) ∧
  ((c.pending ++ c.returned).map Prod.fst).Nodup

/-- What holds of the store at every point of an interleaving that started on
the store `s0`: it holds the tasks of `s0` and one task per returned call,
and nothing else. -/
def Conc.StoreInv (s0 : Storage) (c : Conc) : Prop :=
  (∀ k task, s0.get k = some task → c.store.get k = some task) ∧
  (∀ p ∈ c.returned,
    c.store.get p.1 = some (NewTask p.1 p.2.name p.2.ownerID p.2.ownerUsername)) ∧
  (∀ k task, c.store.get k = some task →
    (∃ t0, s0.get k = some t0) ∨ k ∈ c.returned.map Prod.fst) ∧
  c.store.AllTasks.length = s0.AllTasks.length + c.returned.length

/-- None of the ids that `n` further `NewTask` calls are handed, on a store
whose counter stands at the wrapped value of `c0`, is a key of the store. -/
def Storage.NextFree (s : Storage) (c0 n : Nat) : Prop :=
  ∀ j : Nat, 1 ≤ j → j ≤ n → s.get (wrapInt64 ((c0 : Int) + (j : Int))) = none

/-- The `NewTask` call of the store with the arguments of a goroutine. -/
def Call.op (call : Call) : Op := Op.newTask call.name call.ownerID call.ownerUsername

/-- The interleaving in which `n` goroutines run one after the other: each
does its `Add` and then its insert before the next one starts. -/
def sequential : Nat → List Event
  | 0 => []
  | n + 1 => Event.add 0 :: Event.insert 0 :: sequential n

/-! ## Arithmetic of the id counter -/

theorem wrapInt64_wrapInt64_add (a b : Int) :
    wrapInt64 (wrapInt64 a + b) = wrapInt64 (a + b) := by
  unfold wrapInt64
  omega

theorem wrapInt64_of_inRange (x : Int) (hlo : -9223372036854775808 ≤ x)
    (hhi : x < 9223372036854775808) : wrapInt64 x = x := by
  unfold wrapInt64
  omega

/-! ## The task map -/

theorem dlookup_kreplace_const {β : Type} (a k : Int) (b : β) (l : List (Σ _ : Int, β)) :
    List.dlookup k (List.kreplace a b l) =
      if k = a then (List.dlookup a l).map (fun _ => b) else List.dlookup k l := by
  induction l with
  | nil => simp [List.kreplace]
  | cons x l ih =>
    obtain ⟨a', b'⟩ := x
    by_cases h : a = a'
    · subst h
      by_cases hk : k = a
      · subst hk
        simp [List.kreplace, List.lookmap_cons_some]
      · simp [List.kreplace, List.lookmap_cons_some, hk, List.dlookup_cons_ne]
    · have hcons : List.kreplace a b (⟨a', b'⟩ :: l) = ⟨a', b'⟩ :: List.kreplace a b l := by
        simp [List.kreplace, List.lookmap_cons_none, h]
      rw [hcons]
      by_cases hk : k = a'
      · subst hk
        have hne : k ≠ a := fun e => h e.symm
        simp [hne]
      · have e1 : ∀ l1 : List (Σ _ : Int, β),
            List.dlookup k (⟨a', b'⟩ :: l1) = List.dlookup k l1 :=
          fun l1 => List.dlookup_cons_ne l1 _ hk
        rw [e1, ih]
        split_ifs with h1
        · subst h1
          rw [e1]
        · rw [e1]

theorem lookup_replace (m : AList (fun _ : Int => Task)) (a k : Int) (b : Task) :
    (m.replace a b).lookup k = if k = a then (m.lookup a).map (fun _ => b) else m.lookup k :=
  dlookup_kreplace_const a k b m.entries

namespace Storage

theorem get_NewTask (s : Storage) (name : String) (o : Int) (u : String) (k : Int) :
    (s.NewTask name o u).1.get k =
      if k = (s.NewTask name o u).2 then
        some (Taskbot.NewTask (s.NewTask name o u).2 name o u)
      else s.get k := by
  simp only [Storage.NewTask, Storage.get]
  split_ifs with h
  · subst h
    exact AList.lookup_insert _
  · exact AList.lookup_insert_ne h

theorem AssignTask_of_get_none {s : Storage} {taskID : Int} (h : s.get taskID = none)
    (a : Int) (u : String) :
    s.AssignTask taskID a u = (s, { Err := some StoreError.errNotFound }) := by
  simp only [Storage.get] at h
  simp only [Storage.AssignTask, h]

theorem AssignTask_of_get_some {s : Storage} {taskID : Int} {task : Task}
    (h : s.get taskID = some task) (a : Int) (u : String) :
    s.AssignTask taskID a u =
      ({ nextID := s.nextID,
         tasks := s.tasks.replace taskID
           { task with assigneeID := a, assigneeUsername := u, assigned := true } },
       { Name := task.name, OwnerID := task.ownerID, OwnerUsername := task.ownerUsername,
         OldAssigneeID := some task.assigneeID,
         OldAssigneeUsername := some task.assigneeUsername }) := by
  simp only [Storage.get] at h
  simp only [Storage.AssignTask, h]

theorem UnassignTask_of_get_none {s : Storage} {taskID : Int} (h : s.get taskID = none)
    (r : Int) :
    s.UnassignTask taskID r = (s, { Err := some StoreError.errNotFound }) := by
  simp only [Storage.get] at h
  simp only [Storage.UnassignTask, h]

theorem UnassignTask_of_ne {s : Storage} {taskID : Int} {task : Task}
    (h : s.get taskID = some task) {r : Int} (hr : task.assigneeID ≠ r) :
    s.UnassignTask taskID r = (s, { Err := some StoreError.errNotYours }) := by
  simp only [Storage.get] at h
  simp only [Storage.UnassignTask, h, hr, ne_eq, not_false_eq_true, if_true]

theorem UnassignTask_of_eq {s : Storage} {taskID : Int} {task : Task}
    (h : s.get taskID = some task) {r : Int} (hr : task.assigneeID = r) :
    s.UnassignTask taskID r =
      ({ nextID := s.nextID,
         tasks := s.tasks.replace taskID
           { task with assigned := false, assigneeID := 0, assigneeUsername := "" } },
       { Name := task.name, OwnerID := task.ownerID,
         OwnerUsername := task.ownerUsername }) := by
  simp only [Storage.get] at h
  simp only [Storage.UnassignTask, h, hr, ne_eq, not_true_eq_false, if_false]

theorem ResolveTask_of_get_none {s : Storage} {taskID : Int} (h : s.get taskID = none)
    (r : Int) :
    s.ResolveTask taskID r = (s, { Err := some StoreError.errNotFound }) := by
  simp only [Storage.get] at h
  simp only [Storage.ResolveTask, h]

theorem ResolveTask_of_ne {s : Storage} {taskID : Int} {task : Task}
    (h : s.get taskID = some task) {r : Int} (hr : task.assigneeID ≠ r) :
    s.ResolveTask taskID r = (s, { Err := some StoreError.errNotYours }) := by
  simp only [Storage.get] at h
  simp only [Storage.ResolveTask, h, hr, ne_eq, not_false_eq_true, if_true]

theorem ResolveTask_of_eq {s : Storage} {taskID : Int} {task : Task}
    (h : s.get taskID = some task) {r : Int} (hr : task.assigneeID = r) :
    s.ResolveTask taskID r =
      ({ nextID := s.nextID, tasks := s.tasks.erase taskID },
       { Name := task.name, OwnerID := task.ownerID,
         OwnerUsername := task.ownerUsername }) := by
  simp only [Storage.get] at h
  simp only [Storage.ResolveTask, h, hr, ne_eq, not_true_eq_false, if_false]

theorem get_AssignTask (s : Storage) (taskID a : Int) (u : String) (k : Int) :
    (s.AssignTask taskID a u).1.get k =
      if k = taskID then (s.get taskID).map (fun task => task.assignTo a u) else s.get k := by
  cases hget : s.get taskID with
  | none =>
    rw [AssignTask_of_get_none hget]
    split_ifs with h
    · subst h
      simpa using hget
    · rfl
  | some task =>
    rw [AssignTask_of_get_some hget]
    simp only [Storage.get, lookup_replace] at hget ⊢
    rw [hget]
    rfl

theorem get_UnassignTask (s : Storage) (taskID r : Int) (k : Int) :
    (s.UnassignTask taskID r).1.get k =
      if k = taskID then
        (s.get taskID).map (fun task => if task.assigneeID = r then task.cleared else task)
      else s.get k := by
  cases hget : s.get taskID with
  | none =>
    rw [UnassignTask_of_get_none hget]
    split_ifs with h
    · subst h
      simpa using hget
    · rfl
  | some task =>
    by_cases hr : task.assigneeID = r
    · rw [UnassignTask_of_eq hget hr]
      simp only [Storage.get, lookup_replace] at hget ⊢
      rw [hget]
      simp only [Option.map_some', hr, if_true]
      rfl
    · rw [UnassignTask_of_ne hget hr]
      split_ifs with h
      · subst h
        simp [hget, hr]
      · rfl

theorem get_ResolveTask (s : Storage) (taskID r : Int) (k : Int) :
    (s.ResolveTask taskID r).1.get k =
      if k = taskID then
        (s.get taskID).bind (fun task => if task.assigneeID = r then none else some task)
      else s.get k := by
  cases hget : s.get taskID with
  | none =>
    rw [ResolveTask_of_get_none hget]
    split_ifs with h
    · subst h
      simpa using hget
    · rfl
  | some task =>
    by_cases hr : task.assigneeID = r
    · rw [ResolveTask_of_eq hget hr]
      simp only [Storage.get]
      split_ifs with h
      · subst h
        simp [hr, AList.lookup_erase]
      · exact AList.lookup_erase_ne h
    · rw [ResolveTask_of_ne hget hr]
      split_ifs with h
      · subst h
        simp [hget, hr]
      · rfl

theorem UnassignTask_ok {s : Storage} {taskID r : Int}
    (h : (s.UnassignTask taskID r).2.Err = none) :
    ∃ task, s.get taskID = some task ∧ task.assigneeID = r := by
  cases hget : s.get taskID with
  | none =>
    rw [UnassignTask_of_get_none hget] at h
    simp at h
  | some task =>
    by_cases hr : task.assigneeID = r
    · exact ⟨task, rfl, hr⟩
    · rw [UnassignTask_of_ne hget hr] at h
      simp at h

theorem ResolveTask_ok {s : Storage} {taskID r : Int}
    (h : (s.ResolveTask taskID r).2.Err = none) :
    ∃ task, s.get taskID = some task ∧ task.assigneeID = r := by
  cases hget : s.get taskID with
  | none =>
    rw [ResolveTask_of_get_none hget] at h
    simp at h
  | some task =>
    by_cases hr : task.assigneeID = r
    · exact ⟨task, rfl, hr⟩
    · rw [ResolveTask_of_ne hget hr] at h
      simp at h

theorem mem_AllTasks {s : Storage} {t : Task} : t ∈ s.AllTasks ↔ ∃ k, s.get k = some t := by
  simp only [Storage.AllTasks, Storage.get, List.mem_map]
  constructor
  · rintro ⟨⟨k, b⟩, hmem, rfl⟩
    exact ⟨k, AList.mem_lookup_iff.mpr hmem⟩
  · rintro ⟨k, hk⟩
    exact ⟨⟨k, t⟩, AList.mem_lookup_iff.mp hk, rfl⟩

theorem mem_OwnedTasks {s : Storage} {o : Int} {t : Task} :
    t ∈ s.OwnedTasks o ↔ (∃ k, s.get k = some t) ∧ t.ownerID = o := by
  have h := @mem_AllTasks s t
  simp only [Storage.AllTasks] at h
  simp only [Storage.OwnedTasks, List.mem_filter, decide_eq_true_eq, h]

theorem mem_AssignedTasks {s : Storage} {a : Int} {t : Task} :
    t ∈ s.AssignedTasks a ↔ (∃ k, s.get k = some t) ∧ t.assigneeID = a := by
  have h := @mem_AllTasks s t
  simp only [Storage.AllTasks] at h
  simp only [Storage.AssignedTasks, List.mem_filter, decide_eq_true_eq, h]

end Storage

/-! ## Reachable stores -/

theorem run_append (s : Storage) (ops1 ops2 : List Op) :
    run s (ops1 ++ ops2) = run (run s ops1) ops2 := by
  induction ops1 generalizing s with
  | nil => rfl
  | cons op ops ih => exact ih _

theorem Reachable.init : Reachable NewStorage := ⟨[], rfl⟩

theorem Reachable.step {s : Storage} (h : Reachable s) (op : Op) : Reachable (step s op).1 := by
  obtain ⟨ops, rfl⟩ := h
  exact ⟨ops ++ [op], by rw [run_append]; rfl⟩

theorem inv_NewStorage : NewStorage.Inv := by
  intro k t h
  simp [Storage.get, NewStorage] at h

theorem inv_step {s : Storage} (h : s.Inv) (op : Op) : (step s op).1.Inv := by
  intro k t hk
  cases op with
  | newTask name o u =>
    simp only [step, Storage.get_NewTask] at hk
    split_ifs at hk with hkid
    · cases hk
      exact ⟨hkid.symm, fun _ => ⟨rfl, rfl⟩⟩
    · exact h k t hk
  | assignTask taskID a u =>
    simp only [step, Storage.get_AssignTask] at hk
    split_ifs at hk with hkid
    · subst hkid
      cases hget : s.get k with
      | none => simp [hget] at hk
      | some task =>
        simp only [hget, Option.map_some', Option.some.injEq] at hk
        subst hk
        exact ⟨(h k task hget).1, fun hfalse => by simp [Task.assignTo] at hfalse⟩
    · exact h k t hk
  | unassignTask taskID r =>
    simp only [step, Storage.get_UnassignTask] at hk
    split_ifs at hk with hkid
    · subst hkid
      cases hget : s.get k with
      | none => simp [hget] at hk
      | some task =>
        simp only [hget, Option.map_some', Option.some.injEq] at hk
        split_ifs at hk with hr
        · subst hk
          exact ⟨(h k task hget).1, fun _ => ⟨rfl, rfl⟩⟩
        · subst hk
          exact h k task hget
    · exact h k t hk
  | resolveTask taskID r =>
    simp only [step, Storage.get_ResolveTask] at hk
    split_ifs at hk with hkid
    · subst hkid
      cases hget : s.get k with
      | none => simp [hget] at hk
      | some task =>
        simp only [hget, Option.some_bind] at hk
        split_ifs at hk with hr
        rw [Option.some.injEq] at hk
        exact hk ▸ h k task hget
    · exact h k t hk
  | allTasks => exact h k t hk
  | ownedTasks o => exact h k t hk
  | assignedTasks a => exact h k t hk

theorem inv_run {s : Storage} (h : s.Inv) (ops : List Op) : (run s ops).Inv := by
  induction ops generalizing s with
  | nil => exact h
  | cons op ops ih => exact ih (inv_step h op)

theorem Reachable.inv {s : Storage} (h : Reachable s) : s.Inv := by
  obtain ⟨ops, rfl⟩ := h
  exact inv_run inv_NewStorage ops

theorem nodup_AllTasks {s : Storage} (h : s.Inv) : s.AllTasks.Nodup := by
  unfold Storage.AllTasks
  refine List.Nodup.map_on ?_ s.tasks.nodupKeys.nodup
  rintro ⟨k1, t1⟩ h1 ⟨k2, t2⟩ h2 heq
  have e1 : s.get k1 = some t1 := AList.mem_lookup_iff.mpr h1
  have e2 : s.get k2 = some t2 := AList.mem_lookup_iff.mpr h2
  have hk1 := (h k1 t1 e1).1
  have hk2 := (h k2 t2 e2).1
  simp only at heq
  subst heq
  rw [hk1] at hk2
  subst hk2
  rfl

theorem assignedNonzero_step {s : Storage} (h : s.AssignedNonzero) (op : Op)
    (hop : ∀ taskID a u, op = Op.assignTask taskID a u → a ≠ 0) :
    (step s op).1.AssignedNonzero := by
  intro k t hk hassigned
  cases op with
  | newTask name o u =>
    simp only [step, Storage.get_NewTask] at hk
    split_ifs at hk with hkid
    · rw [Option.some.injEq] at hk
      subst hk
      simp [NewTask] at hassigned
    · exact h k t hk hassigned
  | assignTask taskID a u =>
    simp only [step, Storage.get_AssignTask] at hk
    split_ifs at hk with hkid
    · subst hkid
      cases hget : s.get k with
      | none => simp [hget] at hk
      | some task =>
        simp only [hget, Option.map_some', Option.some.injEq] at hk
        subst hk
        exact hop k a u rfl
    · exact h k t hk hassigned
  | unassignTask taskID r =>
    simp only [step, Storage.get_UnassignTask] at hk
    split_ifs at hk with hkid
    · subst hkid
      cases hget : s.get k with
      | none => simp [hget] at hk
      | some task =>
        simp only [hget, Option.map_some', Option.some.injEq] at hk
        split_ifs at hk with hr
        · subst hk
          simp [Task.cleared] at hassigned
        · subst hk
          exact h k task hget hassigned
    · exact h k t hk hassigned
  | resolveTask taskID r =>
    simp only [step, Storage.get_ResolveTask] at hk
    split_ifs at hk with hkid
    · subst hkid
      cases hget : s.get k with
      | none => simp [hget] at hk
      | some task =>
        simp only [hget, Option.some_bind] at hk
        split_ifs at hk with hr
        rw [Option.some.injEq] at hk
        subst hk
        exact h k task hget hassigned
    · exact h k t hk hassigned
  | allTasks => exact h k t hk hassigned
  | ownedTasks o => exact h k t hk hassigned
  | assignedTasks a => exact h k t hk hassigned

theorem assignedNonzero_run {s : Storage} (h : s.AssignedNonzero) (ops : List Op)
    (hops : assignIdsNonzero ops) : (run s ops).AssignedNonzero := by
  induction ops generalizing s with
  | nil => exact h
  | cons op ops ih =>
    refine ih (assignedNonzero_step h op ?_) ?_
    · intro taskID a u hop
      exact hops taskID a u (by rw [hop]; exact List.mem_cons_self _ _)
    · intro taskID a u hmem
      exact hops taskID a u (List.mem_cons_of_mem _ hmem)

theorem assignedNonzero_NewStorage : NewStorage.AssignedNonzero := by
  intro k t h
  simp [Storage.get, NewStorage] at h

/-- Where the record found under a key after a call comes from: either the
record that was under the key before, with the same id, name and owner, or
the record this very call created. -/
theorem step_get_origin {s : Storage} {op : Op} {k : Int} {t1 : Task}
    (hk : (step s op).1.get k = some t1) :
    (∃ t, s.get k = some t ∧ t1.static = t.static) ∨
    (∃ name o u, op = Op.newTask name o u ∧ k = (s.NewTask name o u).2 ∧
      t1 = NewTask k name o u) := by
  cases op with
  | newTask name o u =>
    simp only [step, Storage.get_NewTask] at hk
    split_ifs at hk with hkid
    · rw [Option.some.injEq] at hk
      exact Or.inr ⟨name, o, u, rfl, hkid, by rw [← hk, ← hkid]⟩
    · exact Or.inl ⟨t1, hk, rfl⟩
  | assignTask taskID a u =>
    simp only [step, Storage.get_AssignTask] at hk
    split_ifs at hk with hkid
    · subst hkid
      cases hget : s.get k with
      | none => simp [hget] at hk
      | some task =>
        simp only [hget, Option.map_some', Option.some.injEq] at hk
        subst hk
        exact Or.inl ⟨task, rfl, rfl⟩
    · exact Or.inl ⟨t1, hk, rfl⟩
  | unassignTask taskID r =>
    simp only [step, Storage.get_UnassignTask] at hk
    split_ifs at hk with hkid
    · subst hkid
      cases hget : s.get k with
      | none => simp [hget] at hk
      | some task =>
        simp only [hget, Option.map_some', Option.some.injEq] at hk
        split_ifs at hk with hr
        · subst hk
          exact Or.inl ⟨task, rfl, rfl⟩
        · subst hk
          exact Or.inl ⟨task, rfl, rfl⟩
    · exact Or.inl ⟨t1, hk, rfl⟩
  | resolveTask taskID r =>
    simp only [step, Storage.get_ResolveTask] at hk
    split_ifs at hk with hkid
    · subst hkid
      cases hget : s.get k with
      | none => simp [hget] at hk
      | some task =>
        simp only [hget, Option.some_bind] at hk
        split_ifs at hk with hr
        rw [Option.some.injEq] at hk
        subst hk
        exact Or.inl ⟨task, rfl, rfl⟩
    · exact Or.inl ⟨t1, hk, rfl⟩
  | allTasks => exact Or.inl ⟨t1, hk, rfl⟩
  | ownedTasks o => exact Or.inl ⟨t1, hk, rfl⟩
  | assignedTasks a => exact Or.inl ⟨t1, hk, rfl⟩

/-- Every stored record was created by some `NewTask` call of the history,
which returned its key and was given its name and owner. -/
theorem stored_task_history (ops : List Op) (k : Int) (t : Task)
    (h : (run NewStorage ops).get k = some t) :
    ∃ pre name o u post, ops = pre ++ Op.newTask name o u :: post ∧
      ((run NewStorage pre).NewTask name o u).2 = k ∧
      t.static = (k, name, o, u) := by
  induction ops using List.reverseRecOn generalizing t with
  | nil => simp [run, Storage.get, NewStorage] at h
  | append_singleton ops op ih =>
    have hrun : run NewStorage (ops ++ [op]) = (step (run NewStorage ops) op).1 := by
      rw [run_append]
      rfl
    rw [hrun] at h
    rcases step_get_origin h with ⟨t0, h0, hst⟩ | ⟨name, o, u, hop, hkid, ht⟩
    · obtain ⟨pre, name, o, u, post, hops, hid, hst0⟩ := ih t0 h0
      refine ⟨pre, name, o, u, post ++ [op], ?_, hid, hst.trans hst0⟩
      rw [hops]
      simp
    · refine ⟨ops, name, o, u, [], ?_, hkid.symm, ?_⟩
      · rw [hop]
      · rw [ht]
        rfl

theorem nextID_step (s : Storage) (op : Op) :
    (step s op).1.nextID =
      match op with
      | .newTask _ _ _ => wrapInt64 (s.nextID + 1)
      | _ => s.nextID := by
  cases op with
  | newTask name o u => rfl
  | assignTask taskID a u =>
    cases hget : s.get taskID with
    | none => simp only [step, Storage.AssignTask_of_get_none hget]
    | some task => simp only [step, Storage.AssignTask_of_get_some hget]
  | unassignTask taskID r =>
    cases hget : s.get taskID with
    | none => simp only [step, Storage.UnassignTask_of_get_none hget]
    | some task =>
      by_cases hr : task.assigneeID = r
      · simp only [step, Storage.UnassignTask_of_eq hget hr]
      · simp only [step, Storage.UnassignTask_of_ne hget hr]
  | resolveTask taskID r =>
    cases hget : s.get taskID with
    | none => simp only [step, Storage.ResolveTask_of_get_none hget]
    | some task =>
      by_cases hr : task.assigneeID = r
      · simp only [step, Storage.ResolveTask_of_eq hget hr]
      · simp only [step, Storage.ResolveTask_of_ne hget hr]
  | allTasks => rfl
  | ownedTasks o => rfl
  | assignedTasks a => rfl

theorem keysBounded_NewStorage : NewStorage.KeysBounded := by
  refine ⟨le_refl _, ?_⟩
  intro k t h
  simp [Storage.get, NewStorage] at h

theorem keysBounded_step {s : Storage} (h : s.KeysBounded) (op : Op)
    (hlt : ∀ name o u, op = Op.newTask name o u → s.nextID + 1 < 9223372036854775808) :
    (step s op).1.KeysBounded := by
  have h0 := h.1
  have hnext := nextID_step s op
  have hmono : s.nextID ≤ (step s op).1.nextID := by
    rw [hnext]
    cases op with
    | newTask name o u =>
      have hw : wrapInt64 (s.nextID + 1) = s.nextID + 1 :=
        wrapInt64_of_inRange _ (by omega) (hlt name o u rfl)
      simp only [hw]
      omega
    | _ => exact le_refl _
  refine ⟨le_trans h.1 hmono, ?_⟩
  intro k t1 hk
  rcases step_get_origin hk with ⟨t0, h0, _⟩ | ⟨name, o, u, hop, hkid, _⟩
  · have hb := h.2 k t0 h0
    exact ⟨hb.1, le_trans hb.2 hmono⟩
  · subst hop
    have hw : wrapInt64 (s.nextID + 1) = s.nextID + 1 :=
      wrapInt64_of_inRange _ (by omega) (hlt name o u rfl)
    have hk1 : k = s.nextID + 1 := by rw [hkid]; exact hw
    have hn : (step s (Op.newTask name o u)).1.nextID = s.nextID + 1 := by
      rw [hnext]
      exact hw
    rw [hn, hk1]
    omega

theorem keysBounded_run {s : Storage} (h : s.KeysBounded) (ops : List Op)
    (hlt : s.nextID + (countNewTask ops : Int) < 9223372036854775808) :
    (run s ops).KeysBounded ∧ (run s ops).nextID = s.nextID + (countNewTask ops : Int) := by
  induction ops generalizing s with
  | nil => exact ⟨h, by simp [run, countNewTask]⟩
  | cons op ops ih =>
    have h0 := h.1
    have hn := nextID_step s op
    have hstep0 := keysBounded_step h op
    cases op with
    | newTask name o u =>
      have hc : (countNewTask (Op.newTask name o u :: ops) : Int) =
          (countNewTask ops : Int) + 1 := by
        simp [countNewTask]
      rw [hc] at hlt ⊢
      have hstep := hstep0 (fun _ _ _ _ => by omega)
      have hw : wrapInt64 (s.nextID + 1) = s.nextID + 1 :=
        wrapInt64_of_inRange _ (by omega) (by omega)
      simp only [hw] at hn
      obtain ⟨hb, he⟩ := ih hstep (by rw [hn]; omega)
      exact ⟨hb, by rw [run, he, hn]; ring⟩
    | _ =>
      have hstep := hstep0 (fun _ _ _ hop => by cases hop)
      simp only at hn
      simp only [countNewTask] at hlt ⊢
      obtain ⟨hb, he⟩ := ih hstep (by rw [hn]; exact hlt)
      exact ⟨hb, by rw [run, he, hn]⟩

/-- Below `2^63` creations the id handed out by the next `NewTask` is not a
key of the map, so `NewTask` never replaces a stored record. -/
theorem next_id_fresh (ops : List Op)
    (hlt : (countNewTask ops : Int) + 1 < 9223372036854775808)
    (name : String) (o : Int) (u : String) :
    (run NewStorage ops).get ((run NewStorage ops).NewTask name o u).2 = none := by
  obtain ⟨hb, hn⟩ := keysBounded_run keysBounded_NewStorage ops
    (by simp only [NewStorage]; omega)
  have hn1 : (run NewStorage ops).nextID = (countNewTask ops : Int) := by
    rw [hn]
    simp [NewStorage]
  have hid : ((run NewStorage ops).NewTask name o u).2 = (countNewTask ops : Int) + 1 := by
    simp only [Storage.NewTask, hn1]
    exact wrapInt64_of_inRange _ (by omega) hlt
  rw [hid]
  cases hget : (run NewStorage ops).get ((countNewTask ops : Int) + 1) with
  | none => rfl
  | some t =>
    have := (hb.2 _ t hget).2
    rw [hn1] at this
    omega

/-! ## The counter over long histories -/

theorem countNewTask_append (ops1 ops2 : List Op) :
    countNewTask (ops1 ++ ops2) = countNewTask ops1 + countNewTask ops2 := by
  induction ops1 with
  | nil => simp [countNewTask]
  | cons op ops ih =>
    cases op <;> simp [countNewTask, ih]
    omega

theorem countNewTask_replicate (n : Nat) (name : String) (o : Int) (u : String) :
    countNewTask (List.replicate n (Op.newTask name o u)) = n := by
  induction n with
  | zero => rfl
  | succ n ih => simp [List.replicate_succ, countNewTask, ih]

/-- The counter after a sequence of calls only depends on the number of
`NewTask` calls in it. -/
theorem nextID_run (s : Storage) (ops : List Op) :
    (run s ops).nextID =
      if countNewTask ops = 0 then s.nextID
      else wrapInt64 (s.nextID + (countNewTask ops : Int)) := by
  induction ops generalizing s with
  | nil => simp [run, countNewTask]
  | cons op ops ih =>
    have hn := nextID_step s op
    cases op with
    | newTask name o u =>
      simp only at hn
      rw [run, ih, hn]
      have hc : countNewTask (Op.newTask name o u :: ops) = countNewTask ops + 1 := rfl
      rw [hc, if_neg (Nat.succ_ne_zero _)]
      split_ifs with h0
      · rw [h0]
        simp
      · rw [wrapInt64_wrapInt64_add]
        congr 1
        push_cast
        ring
    | _ =>
      simp only at hn
      rw [run, ih, hn]
      rfl

/-- After a sequence of calls ending in a `NewTask`, the created record sits
under the id that call returned. -/
theorem get_run_snoc_newTask (s : Storage) (ops : List Op) (name : String) (o : Int)
    (u : String) :
    (run s (ops ++ [Op.newTask name o u])).get (wrapInt64 ((run s ops).nextID + 1)) =
      some (NewTask (wrapInt64 ((run s ops).nextID + 1)) name o u) := by
  rw [run_append]
  simp only [run, step]
  rw [Storage.get_NewTask]
  simp [Storage.NewTask]

theorem kreplace_kreplace_const {β : Type} (a : Int) (b b1 : β) (l : List (Σ _ : Int, β)) :
    List.kreplace a b (List.kreplace a b1 l) = List.kreplace a b l := by
  induction l with
  | nil => simp [List.kreplace]
  | cons x l ih =>
    obtain ⟨a1, b2⟩ := x
    by_cases h : a = a1
    · subst h
      simp [List.kreplace, List.lookmap_cons_some]
    · have hcons : ∀ (c : β) (l1 : List (Σ _ : Int, β)),
          List.kreplace a c (⟨a1, b2⟩ :: l1) = ⟨a1, b2⟩ :: List.kreplace a c l1 := by
        intro c l1
        simp [List.kreplace, List.lookmap_cons_none, h]
      rw [hcons, hcons, hcons, ih]

/-- Writing back the record that is already stored leaves the map as it is,
also after an intermediate write under the same key. -/
theorem replace_replace_self (m : AList (fun _ : Int => Task)) (a : Int) (b b1 : Task)
    (h : m.lookup a = some b) : (m.replace a b1).replace a b = m := by
  apply AList.ext
  show List.kreplace a b (List.kreplace a b1 m.entries) = m.entries
  rw [kreplace_kreplace_const]
  exact List.kreplace_self m.nodupKeys (AList.mem_lookup_iff.mp h)

theorem length_AllTasks_NewTask (s : Storage) (name : String) (o : Int) (u : String)
    (h : s.get (s.NewTask name o u).2 = none) :
    (s.NewTask name o u).1.AllTasks.length = s.AllTasks.length + 1 := by
  have hnot : (s.NewTask name o u).2 ∉ s.tasks := AList.lookup_eq_none.mp h
  simp only [Storage.AllTasks, Storage.NewTask, List.length_map] at hnot ⊢
  rw [AList.insert_entries_of_neg hnot]
  rfl

/-! ## The id sequence -/

theorem newTaskReturns_length (s : Storage) (ops : List Op) :
    (newTaskReturns s ops).length = countNewTask ops := by
  induction ops generalizing s with
  | nil => rfl
  | cons op ops ih => cases op <;> simp [newTaskReturns, countNewTask, ih]

theorem newTaskReturns_getElem? (s : Storage) (ops : List Op) (j : Nat)
    (hj : j < countNewTask ops) :
    (newTaskReturns s ops)[j]? = some (wrapInt64 (s.nextID + (j : Int) + 1)) := by
  induction ops generalizing s j with
  | nil => simp [countNewTask] at hj
  | cons op ops ih =>
    cases op with
    | newTask name o u =>
      cases j with
      | zero => simp [newTaskReturns, Storage.NewTask]
      | succ j =>
        have hj1 : j < countNewTask ops := by simpa [countNewTask] using hj
        simp only [newTaskReturns, List.getElem?_cons_succ]
        rw [ih _ j hj1]
        simp only [Storage.NewTask, Nat.cast_add, Nat.cast_one]
        rw [add_assoc (wrapInt64 (s.nextID + 1)), wrapInt64_wrapInt64_add]
        congr 2
        ring
    | assignTask t a u =>
      have hj1 : j < countNewTask ops := by simpa [countNewTask] using hj
      simp only [newTaskReturns]
      rw [ih _ j hj1]
      simp only [step, Storage.AssignTask]
      cases s.tasks.lookup t <;> rfl
    | unassignTask t a =>
      have hj1 : j < countNewTask ops := by simpa [countNewTask] using hj
      simp only [newTaskReturns]
      rw [ih _ j hj1]
      simp only [step, Storage.UnassignTask]
      cases s.tasks.lookup t with
      | none => rfl
      | some task => dsimp only; split_ifs <;> rfl
    | resolveTask t a =>
      have hj1 : j < countNewTask ops := by simpa [countNewTask] using hj
      simp only [newTaskReturns]
      rw [ih _ j hj1]
      simp only [step, Storage.ResolveTask]
      cases s.tasks.lookup t with
      | none => rfl
      | some task => dsimp only; split_ifs <;> rfl
    | allTasks =>
      have hj1 : j < countNewTask ops := by simpa [countNewTask] using hj
      simp only [newTaskReturns]
      rw [ih _ j hj1]
      rfl
    | ownedTasks o =>
      have hj1 : j < countNewTask ops := by simpa [countNewTask] using hj
      simp only [newTaskReturns]
      rw [ih _ j hj1]
      rfl
    | assignedTasks a =>
      have hj1 : j < countNewTask ops := by simpa [countNewTask] using hj
      simp only [newTaskReturns]
      rw [ih _ j hj1]
      rfl

/-- C1: starting from `NewStorage()`, for every sequence of store calls there
is one returned id per `NewTask` call, and for every `k` below `2^63` the
`k`-th call to `NewTask` (when the sequence has one) returns exactly `k`;
resolving tasks in between never makes an id come back.  In particular, with
fewer than `2^63` creations the returned ids are `1, 2, ..., n` in call
order: they start at 1, strictly increase and never repeat. -/
theorem newTask_kth_call_returns_k (ops : List Op) :
    (newTaskReturns NewStorage ops).length = countNewTask ops ∧
    (∀ k : Nat, 1 ≤ k → (k : Int) < 9223372036854775808 → k ≤ countNewTask ops →
      (newTaskReturns NewStorage ops)[k - 1]? = some (k : Int)) ∧
    ((countNewTask ops : Int) < 9223372036854775808 →
      newTaskReturns NewStorage ops =
        (List.range (countNewTask ops)).map (fun i : Nat => (i : Int) + 1)) := by
  have kth : ∀ k : Nat, 1 ≤ k → (k : Int) < 9223372036854775808 → k ≤ countNewTask ops →
      (newTaskReturns NewStorage ops)[k - 1]? = some (k : Int) := by
    intro k h1 hk hle
    rw [newTaskReturns_getElem? NewStorage ops (k - 1) (by omega)]
    have hcast : NewStorage.nextID + ((k - 1 : Nat) : Int) + 1 = (k : Int) := by
      simp only [NewStorage]
      omega
    rw [hcast, wrapInt64_of_inRange (k : Int) (by omega) hk]
  refine ⟨newTaskReturns_length _ _, kth, ?_⟩
  intro hn
  apply List.ext_getElem?
  intro i
  by_cases hi : i < countNewTask ops
  · have h := kth (i + 1) (by omega) (by push_cast; omega) (by omega)
    rw [Nat.add_sub_cancel] at h
    rw [h, List.getElem?_map, List.getElem?_range hi]
    simp
  · rw [List.getElem?_eq_none (by rw [newTaskReturns_length]; omega),
      List.getElem?_eq_none (by simp; omega)]

theorem newTask_kth_call_returns_k_witness :
    (newTaskReturns NewStorage
        [.newTask "a" 7 "u", .newTask "b" 7 "u", .newTask "c" 8 "v", .assignTask 3 8 "v",
         .resolveTask 3 8, .newTask "d" 7 "u"])[4 - 1]? = some (4 : Int) :=
  (newTask_kth_call_returns_k
    [.newTask "a" 7 "u", .newTask "b" 7 "u", .newTask "c" 8 "v", .assignTask 3 8 "v",
     .resolveTask 3 8, .newTask "d" 7 "u"]).2.1 4 (by decide) (by decide) (by decide)

/-! ## Ids within one turn of the counter -/

/-- Two integers less than `2^64` apart wrap to different 64-bit values. -/
theorem wrapInt64_ne_of_lt {x y : Int} (hlt : x < y) (hclose : y - x < 18446744073709551616) :
    wrapInt64 x ≠ wrapInt64 y := by
  unfold wrapInt64
  omega

theorem nextID_run_NewStorage (ops : List Op) :
    (run NewStorage ops).nextID = wrapInt64 (countNewTask ops : Int) := by
  rw [nextID_run]
  split_ifs with h
  · rw [h]
    rfl
  · simp [NewStorage]

/-- Every key of a reachable store is the id handed out by one of the
`NewTask` calls of its history: the `m`-th call hands out `wrapInt64 m`. -/
theorem stored_key_handed_out (ops : List Op) (k : Int) (task : Task)
    (h : (run NewStorage ops).get k = some task) :
    ∃ m : Nat, 1 ≤ m ∧ m ≤ countNewTask ops ∧ k = wrapInt64 (m : Int) := by
  obtain ⟨pre, name, o, u, post, hops, hid, _⟩ := stored_task_history ops k task h
  refine ⟨countNewTask pre + 1, by omega, ?_, ?_⟩
  · rw [hops, countNewTask_append]
    simp only [countNewTask]
    omega
  · rw [← hid]
    simp only [Storage.NewTask, nextID_run_NewStorage, wrapInt64_wrapInt64_add]
    push_cast
    rfl

/-- Within the first `2^64` creations the id handed out by the next `NewTask`
is not a key of the map. -/
theorem next_id_fresh_one_turn (ops : List Op)
    (hlt : (countNewTask ops : Int) < 18446744073709551616)
    (name : String) (o : Int) (u : String) :
    (run NewStorage ops).get ((run NewStorage ops).NewTask name o u).2 = none := by
  cases hget : (run NewStorage ops).get ((run NewStorage ops).NewTask name o u).2 with
  | none => rfl
  | some task =>
    obtain ⟨m, h1, hm, hk⟩ := stored_key_handed_out ops _ task hget
    simp only [Storage.NewTask, nextID_run_NewStorage, wrapInt64_wrapInt64_add] at hk
    have hne := @wrapInt64_ne_of_lt (m : Int) ((countNewTask ops : Int) + 1) (by omega)
      (by omega)
    exact absurd hk.symm hne

theorem mem_newTaskReturns {s : Storage} {ops : List Op} {k : Int}
    (h : k ∈ newTaskReturns s ops) :
    ∃ j : Nat, j < countNewTask ops ∧ k = wrapInt64 (s.nextID + (j : Int) + 1) := by
  obtain ⟨j, hj, hjk⟩ := List.mem_iff_getElem.mp h
  rw [newTaskReturns_length] at hj
  have h2 := newTaskReturns_getElem? s ops j hj
  rw [List.getElem?_eq_getElem (by rw [newTaskReturns_length]; exact hj), hjk,
    Option.some.injEq] at h2
  exact ⟨j, hj, h2⟩

/-- A key that is not stored stays absent as long as no `NewTask` call hands
it out. -/
theorem absent_run_of_not_returned {s : Storage} {k : Int} (hnone : s.get k = none)
    (ops : List Op) (hret : k ∉ newTaskReturns s ops) : (run s ops).get k = none := by
  induction ops generalizing s with
  | nil => exact hnone
  | cons op ops ih =>
    have horigin : ∀ t1, (step s op).1.get k = some t1 →
        ∃ name o u, op = Op.newTask name o u ∧ k = (s.NewTask name o u).2 := by
      intro t1 hk
      rcases step_get_origin hk with ⟨t0, h0, _⟩ | ⟨name, o, u, hop, hkid, _⟩
      · rw [hnone] at h0
        cases h0
      · exact ⟨name, o, u, hop, hkid⟩
    have hstep : (∀ name o u, op = Op.newTask name o u → k ≠ (s.NewTask name o u).2) →
        (step s op).1.get k = none := by
      intro hne
      cases hget : (step s op).1.get k with
      | none => rfl
      | some t1 =>
        obtain ⟨name1, o1, u1, hop, hkid⟩ := horigin t1 hget
        exact absurd hkid (hne _ _ _ hop)
    cases op with
    | newTask name o u =>
      simp only [newTaskReturns, List.mem_cons, not_or] at hret
      refine ih (hstep ?_) hret.2
      intro name1 o1 u1 hop
      cases hop
      exact hret.1
    | assignTask t a u1 =>
      exact ih (hstep (fun _ _ _ hop => by cases hop)) (by simpa [newTaskReturns] using hret)
    | unassignTask t a =>
      exact ih (hstep (fun _ _ _ hop => by cases hop)) (by simpa [newTaskReturns] using hret)
    | resolveTask t a =>
      exact ih (hstep (fun _ _ _ hop => by cases hop)) (by simpa [newTaskReturns] using hret)
    | allTasks =>
      exact ih (hstep (fun _ _ _ hop => by cases hop)) (by simpa [newTaskReturns] using hret)
    | ownedTasks o1 =>
      exact ih (hstep (fun _ _ _ hop => by cases hop)) (by simpa [newTaskReturns] using hret)
    | assignedTasks a =>
      exact ih (hstep (fun _ _ _ hop => by cases hop)) (by simpa [newTaskReturns] using hret)

/-- A run of `NewTask` calls leaves a key alone unless one of them is handed
that key as its id. -/
theorem get_run_replicate_newTask (s : Storage) (k : Int) (n : Nat) (name : String) (o : Int)
    (u : String)
    (h : ∀ j : Nat, 1 ≤ j → j ≤ n → wrapInt64 (s.nextID + (j : Int)) ≠ k) :
    (run s (List.replicate n (Op.newTask name o u))).get k = s.get k := by
  induction n generalizing s with
  | zero => rfl
  | succ n ih =>
    rw [List.replicate_succ, run]
    have h1 := h 1 (le_refl _) (by omega)
    rw [ih]
    · show (s.NewTask name o u).1.get k = s.get k
      rw [Storage.get_NewTask, if_neg]
      intro e
      exact h1 (by rw [e]; simp [Storage.NewTask])
    · intro j hj1 hjn
      simp only [step, Storage.NewTask, wrapInt64_wrapInt64_add]
      have := h (j + 1) (by omega) (by omega)
      rw [show s.nextID + 1 + (j : Int) = s.nextID + ((j + 1 : Nat) : Int) by push_cast; ring]
      exact this

/-- The store after `2^64` creations: the counter is back at 0 and the first
task is still stored under the key 1. -/
theorem store_after_one_turn (name : String) (o : Int) (u : String) :
    (run NewStorage (List.replicate 18446744073709551616 (Op.newTask name o u))).nextID = 0 ∧
    (run NewStorage (List.replicate 18446744073709551616 (Op.newTask name o u))).get 1 =
      some (NewTask 1 name o u) := by
  constructor
  · rw [nextID_run_NewStorage, countNewTask_replicate]
    decide
  · have hsplit : List.replicate 18446744073709551616 (Op.newTask name o u) =
        Op.newTask name o u :: List.replicate 18446744073709551615 (Op.newTask name o u) :=
      List.replicate_succ _ _
    rw [hsplit, run, get_run_replicate_newTask]
    · show (NewStorage.NewTask name o u).1.get 1 = _
      have hid : (NewStorage.NewTask name o u).2 = 1 := rfl
      rw [Storage.get_NewTask, hid, if_pos rfl]
    · intro j hj1 hjn
      have hn : (step NewStorage (Op.newTask name o u)).1.nextID = 1 := rfl
      rw [hn]
      unfold wrapInt64
      omega

theorem absent_of_get_none {ops : List Op} {t : Int} (h : (run NewStorage ops).get t = none) :
    (run NewStorage ops).Absent t := by
  refine ⟨h, ?_, fun a u => Storage.AssignTask_of_get_none h a u,
    fun a => Storage.UnassignTask_of_get_none h a,
    fun a => Storage.ResolveTask_of_get_none h a⟩
  intro task1 hmem hid
  obtain ⟨k, hk⟩ := Storage.mem_AllTasks.mp hmem
  have hkid := (inv_run inv_NewStorage _ k task1 hk).1
  rw [hid] at hkid
  rw [← hkid, h] at hk
  cases hk

/-! ## Concurrent `NewTask` calls: the invariant -/

theorem pick_perm {α : Type} {l : List α} {i : Nat} {x : α} {r : List α}
    (h : pick l i = some (x, r)) : l.Perm (x :: r) := by
  induction l generalizing i r with
  | nil => simp [pick] at h
  | cons y ys ih =>
    cases i with
    | zero =>
      simp only [pick, Option.some.injEq, Prod.mk.injEq] at h
      obtain ⟨h1, h2⟩ := h
      subst h1 h2
      exact List.Perm.refl _
    | succ i =>
      cases hp : pick ys i with
      | none => simp [pick, hp] at h
      | some q =>
        obtain ⟨z, zs⟩ := q
        simp only [pick, hp, Option.some.injEq, Prod.mk.injEq] at h
        obtain ⟨h1, h2⟩ := h
        subst h1 h2
        exact ((ih hp).cons y).trans (List.Perm.swap _ _ _)

theorem Conc.idsInv_start (s0 : Storage) (c0 : Nat) (calls : List Call)
    (hnext : s0.nextID = wrapInt64 (c0 : Int)) : (Conc.start s0 calls).IdsInv c0 calls := by
  refine ⟨?_, ?_, ?_, ?_⟩
  · simp [Conc.start]
  · simp [Conc.start, hnext]
  · intro p hp
    simp [Conc.start] at hp
  · simp [Conc.start]

theorem Conc.storeInv_start (s0 : Storage) (calls : List Call) :
    (Conc.start s0 calls).StoreInv s0 := by
  refine ⟨fun k task h => h, ?_, fun k task h => Or.inl ⟨task, h⟩, ?_⟩
  · intro p hp
    simp [Conc.start] at hp
  · simp [Conc.start]

theorem Conc.idsInv_step {c0 : Nat} {calls : List Call}
    (hN : (calls.length : Int) ≤ 18446744073709551616)
    {c : Conc} (h : c.IdsInv c0 calls) (e : Event) : (c.step e).IdsInv c0 calls := by
  obtain ⟨store, waiting, pending, returned⟩ := c
  obtain ⟨hperm, hnext, hrange, hnodup⟩ := h
  simp only at hperm hnext hrange hnodup
  have hlen : waiting.length + (pending ++ returned).length = calls.length := by
    have := hperm.length_eq
    simpa using this
  cases e with
  | add i =>
    cases hp : pick waiting i with
    | none =>
      simp only [Conc.step, hp]
      exact ⟨hperm, hnext, hrange, hnodup⟩
    | some q =>
      obtain ⟨call, rest⟩ := q
      have hw := pick_perm hp
      have hwlen : waiting.length = rest.length + 1 := by
        have := hw.length_eq
        simpa using this
      simp only [Conc.step, hp]
      refine ⟨?_, ?_, ?_, ?_⟩
      · simp only [List.cons_append, List.map_cons]
        exact List.perm_middle.trans ((hw.symm.append_right _).trans hperm)
      · simp only [hnext, wrapInt64_wrapInt64_add, List.cons_append, List.length_cons]
        congr 1
      · intro p hpmem
        simp only [List.cons_append, List.mem_cons] at hpmem
        rcases hpmem with rfl | hpmem
        · refine ⟨(pending ++ returned).length + 1, by omega, by simp, ?_⟩
          simp only [hnext, wrapInt64_wrapInt64_add]
          congr 1
        · obtain ⟨j, hj1, hj, hpj⟩ := hrange p hpmem
          exact ⟨j, hj1, by simp only [List.cons_append, List.length_cons]; omega, hpj⟩
      · simp only [List.cons_append, List.map_cons]
        refine List.nodup_cons.mpr ⟨?_, hnodup⟩
        intro hmem
        obtain ⟨p, hpmem, hpid⟩ := List.mem_map.mp hmem
        obtain ⟨j, hj1, hj, hpj⟩ := hrange p hpmem
        rw [hpj, hnext, wrapInt64_wrapInt64_add] at hpid
        exact @wrapInt64_ne_of_lt ((c0 : Int) + (j : Int))
          ((c0 : Int) + ((pending ++ returned).length : Int) + 1) (by omega) (by omega) hpid
  | insert j =>
    cases hp : pick pending j with
    | none =>
      simp only [Conc.step, hp]
      exact ⟨hperm, hnext, hrange, hnodup⟩
    | some q =>
      obtain ⟨p, rest⟩ := q
      have hpend := pick_perm hp
      have hL : (rest ++ p :: returned).Perm (pending ++ returned) :=
        List.perm_middle.trans (hpend.symm.append_right returned)
      have hLlen : (rest ++ p :: returned).length = (pending ++ returned).length :=
        hL.length_eq
      simp only [Conc.step, hp]
      refine ⟨?_, ?_, ?_, ?_⟩
      · exact ((hL.map Prod.snd).append_left waiting).trans hperm
      · rw [hLlen]
        exact hnext
      · intro q hq
        rw [hLlen]
        exact hrange q (hL.subset hq)
      · exact (hL.map Prod.fst).nodup_iff.mpr hnodup

theorem Conc.storeInv_step {s0 : Storage} {c0 : Nat} {calls : List Call}
    (hfree : s0.NextFree c0 calls.length)
    {c : Conc} (hids : c.IdsInv c0 calls) (h : c.StoreInv s0) (e : Event) :
    (c.step e).StoreInv s0 := by
  obtain ⟨store, waiting, pending, returned⟩ := c
  obtain ⟨hperm, hnext, hrange, hnodup⟩ := hids
  obtain ⟨horig, hret, hfrom, hlen⟩ := h
  simp only at hperm hnext hrange hnodup horig hret hfrom hlen
  have hN : waiting.length + (pending ++ returned).length = calls.length := by
    have := hperm.length_eq
    simpa using this
  cases e with
  | add i =>
    cases hp : pick waiting i with
    | none =>
      simp only [Conc.step, hp]
      exact ⟨horig, hret, hfrom, hlen⟩
    | some q =>
      simp only [Conc.step, hp]
      exact ⟨horig, hret, hfrom, hlen⟩
  | insert j =>
    cases hp : pick pending j with
    | none =>
      simp only [Conc.step, hp]
      exact ⟨horig, hret, hfrom, hlen⟩
    | some q =>
      obtain ⟨p, rest⟩ := q
      have hpend := pick_perm hp
      have hpL : p ∈ pending ++ returned :=
        List.mem_append_left _ (hpend.symm.subset (List.mem_cons_self _ _))
      obtain ⟨jp, hjp1, hjp, hpid⟩ := hrange p hpL
      have hnd2 : (p.1 :: (rest ++ returned).map Prod.fst).Nodup := by
        have := ((hpend.append_right returned).map Prod.fst).nodup_iff.mp hnodup
        simpa using this
      have hnotret : p.1 ∉ returned.map Prod.fst := by
        intro hmem
        have hnot := (List.nodup_cons.mp hnd2).1
        apply hnot
        rw [List.map_append]
        exact List.mem_append_right _ hmem
      have hnotorig : ∀ t0, s0.get p.1 ≠ some t0 := by
        intro t0 h0
        rw [hpid, hfree jp hjp1 (by omega)] at h0
        cases h0
      have hfresh : store.get p.1 = none := by
        cases hget : store.get p.1 with
        | none => rfl
        | some t1 =>
          rcases hfrom p.1 t1 hget with ⟨t0, h0⟩ | hmem
          · exact absurd h0 (hnotorig t0)
          · exact absurd hmem hnotret
      have hgetne : ∀ k, k ≠ p.1 →
          Storage.get ⟨store.nextID, store.tasks.insert p.1
            (NewTask p.1 p.2.name p.2.ownerID p.2.ownerUsername)⟩ k = store.get k :=
        fun k hk => AList.lookup_insert_ne hk
      have hgeteq : Storage.get ⟨store.nextID, store.tasks.insert p.1
            (NewTask p.1 p.2.name p.2.ownerID p.2.ownerUsername)⟩ p.1 =
          some (NewTask p.1 p.2.name p.2.ownerID p.2.ownerUsername) :=
        AList.lookup_insert _
      simp only [Conc.step, hp]
      refine ⟨?_, ?_, ?_, ?_⟩
      · intro k task hk
        rw [hgetne k]
        · exact horig k task hk
        · intro e
          rw [e] at hk
          exact hnotorig task hk
      · intro q hq
        rcases List.mem_cons.mp hq with rfl | hq
        · exact hgeteq
        · rw [hgetne]
          · exact hret q hq
          · intro e
            exact hnotret (e ▸ List.mem_map_of_mem Prod.fst hq)
      · intro k task hk
        by_cases hkp : k = p.1
        · exact Or.inr (by rw [hkp]; simp)
        · rw [hgetne k hkp] at hk
          rcases hfrom k task hk with h0 | hmem
          · exact Or.inl h0
          · exact Or.inr (by simp only [List.map_cons]; exact List.mem_cons_of_mem _ hmem)
      · have hnot : p.1 ∉ store.tasks := AList.lookup_eq_none.mp hfresh
        simp only [Storage.AllTasks, List.length_map, List.length_cons] at hlen ⊢
        rw [AList.insert_entries_of_neg hnot, List.length_cons, hlen]
        omega

theorem Conc.idsInv_run {c0 : Nat} {calls : List Call}
    (hN : (calls.length : Int) ≤ 18446744073709551616)
    {c : Conc} (h : c.IdsInv c0 calls) (events : List Event) :
    (c.run events).IdsInv c0 calls := by
  induction events generalizing c with
  | nil => exact h
  | cons e es ih => exact ih (Conc.idsInv_step hN h e)

theorem Conc.storeInv_run {s0 : Storage} {c0 : Nat} {calls : List Call}
    (hN : (calls.length : Int) ≤ 18446744073709551616)
    (hfree : s0.NextFree c0 calls.length)
    {c : Conc} (hids : c.IdsInv c0 calls) (h : c.StoreInv s0) (events : List Event) :
    (c.run events).StoreInv s0 := by
  induction events generalizing c with
  | nil => exact h
  | cons e es ih =>
    exact ih (Conc.idsInv_step hN hids e) (Conc.storeInv_step hfree hids h e)

/-- Within the first `2^64` creations none of the ids still to be handed out
is a key of the store. -/
theorem nextFree_one_turn (ops : List Op) (n : Nat)
    (hbound : (countNewTask ops : Int) + (n : Int) ≤ 18446744073709551616) :
    (run NewStorage ops).NextFree (countNewTask ops) n := by
  intro j hj1 hjn
  cases hget : (run NewStorage ops).get (wrapInt64 ((countNewTask ops : Int) + (j : Int))) with
  | none => rfl
  | some task =>
    obtain ⟨m, hm1, hm, hk⟩ := stored_key_handed_out ops _ task hget
    exact absurd hk.symm (@wrapInt64_ne_of_lt (m : Int) ((countNewTask ops : Int) + (j : Int))
      (by omega) (by omega))

theorem Conc.run_events_append (c : Conc) (es1 es2 : List Event) :
    c.run (es1 ++ es2) = (c.run es1).run es2 := by
  induction es1 generalizing c with
  | nil => rfl
  | cons e es ih => exact ih _

/-- No deadlock: from every point of an interleaving the remaining actions can
be performed, so that every call returns. -/
theorem Conc.exists_completion (n : Nat) (c : Conc)
    (h : 2 * c.waiting.length + c.pending.length ≤ n) : ∃ es, (c.run es).finished := by
  induction n generalizing c with
  | zero =>
    have hw : c.waiting = [] := List.length_eq_zero.mp (by omega)
    have hp : c.pending = [] := List.length_eq_zero.mp (by omega)
    exact ⟨[], hw, hp⟩
  | succ n ih =>
    obtain ⟨store, waiting, pending, returned⟩ := c
    cases pending with
    | cons p rest =>
      obtain ⟨es, hes⟩ := ih (Conc.step ⟨store, waiting, p :: rest, returned⟩ (Event.insert 0))
        (by simp only [Conc.step, pick, List.length_cons] at h ⊢; omega)
      exact ⟨Event.insert 0 :: es, hes⟩
    | nil =>
      cases waiting with
      | nil => exact ⟨[], rfl, rfl⟩
      | cons call rest =>
        obtain ⟨es, hes⟩ := ih (Conc.step ⟨store, call :: rest, [], returned⟩ (Event.add 0))
          (by simp only [Conc.step, pick, List.length_cons, List.length_nil] at h ⊢; omega)
        exact ⟨Event.add 0 :: es, hes⟩

/-- One goroutine alone: its two actions in a row are `Storage.NewTask`. -/
theorem Conc.run_one_call (s : Storage) (call : Call) :
    (Conc.start s [call]).run [.add 0, .insert 0] =
      { store := (s.NewTask call.name call.ownerID call.ownerUsername).1,
        waiting := [], pending := [],
        returned := [((s.NewTask call.name call.ownerID call.ownerUsername).2, call)] } :=
  rfl

theorem length_AllTasks_NewTask_of_stored (s : Storage) (name : String) (o : Int) (u : String)
    (t : Task) (h : s.get (s.NewTask name o u).2 = some t) :
    (s.NewTask name o u).1.AllTasks.length = s.AllTasks.length := by
  have hmem : (s.NewTask name o u).2 ∈ s.tasks.keys := by
    rw [← AList.mem_keys]
    exact AList.lookup_isSome.mp (by rw [show s.tasks.lookup _ = some t from h]; rfl)
  have hk1 : ∀ m : AList (fun _ : Int => Task), m.entries.length = m.keys.length := by
    intro m
    simp [AList.keys, List.keys]
  have hpos := List.length_pos_of_mem hmem
  simp only [Storage.AllTasks, List.length_map, hk1]
  simp only [Storage.NewTask] at hmem ⊢
  rw [AList.keys_insert, List.length_cons, List.length_erase_of_mem hmem]
  omega

/-- Goroutines that run one after the other are successive calls of
`Storage.NewTask`, and they return the ids of those calls. -/
theorem Conc.run_sequential (calls : List Call) (s : Storage) (ret : List (Int × Call)) :
    Conc.run ⟨s, calls, [], ret⟩ (sequential calls.length) =
      ⟨Taskbot.run s (calls.map Call.op), [], [],
        ((newTaskReturns s (calls.map Call.op)).zip calls).reverse ++ ret⟩ := by
  induction calls generalizing s ret with
  | nil => rfl
  | cons call calls ih =>
    have hstep : Conc.run ⟨s, call :: calls, [], ret⟩ (sequential (call :: calls).length) =
        Conc.run ⟨(s.NewTask call.name call.ownerID call.ownerUsername).1, calls, [],
          ((s.NewTask call.name call.ownerID call.ownerUsername).2, call) :: ret⟩
          (sequential calls.length) := rfl
    rw [hstep, ih]
    simp [Call.op, Taskbot.run, Taskbot.step, newTaskReturns]

/-- More than `2^64` successive `NewTask` calls cannot all return different
ids: call `2^64 + 1` returns the id of call 1. -/
theorem newTaskReturns_not_nodup (name : String) (o : Int) (u : String) :
    ¬ (newTaskReturns NewStorage
      (List.replicate 18446744073709551617 (Op.newTask name o u))).Nodup := by
  intro hnd
  have hc := countNewTask_replicate 18446744073709551617 name o u
  have h0 := newTaskReturns_getElem? NewStorage
    (List.replicate 18446744073709551617 (Op.newTask name o u)) 0 (by rw [hc]; decide)
  have h1 := newTaskReturns_getElem? NewStorage
    (List.replicate 18446744073709551617 (Op.newTask name o u)) 18446744073709551616
    (by rw [hc]; decide)
  have e0 : wrapInt64 (NewStorage.nextID + ((0 : Nat) : Int) + 1) = 1 := by decide
  have e1 : wrapInt64 (NewStorage.nextID + ((18446744073709551616 : Nat) : Int) + 1) = 1 := by
    decide
  rw [e0] at h0
  rw [e1] at h1
  refine List.nodup_iff_getElem?_ne_getElem?.mp hnd 0 18446744073709551616 (by decide) ?_ ?_
  · rw [newTaskReturns_length, hc]
    decide
  · rw [h0, h1]

/-- With `2^64 + 1` goroutines running one after the other on a fresh store
every call returns, and two of them have returned the same id. -/
theorem sequential_ids_repeat (call : Call) :
    ((Conc.start NewStorage (List.replicate 18446744073709551617 call)).run
        (sequential 18446744073709551617)).finished ∧
    ¬ ((((Conc.start NewStorage (List.replicate 18446744073709551617 call)).run
        (sequential 18446744073709551617)).returned).map Prod.fst).Nodup := by
  have hlen : (List.replicate 18446744073709551617 call).length = 18446744073709551617 :=
    List.length_replicate _ _
  have hrun := Conc.run_sequential (List.replicate 18446744073709551617 call) NewStorage []
  rw [hlen] at hrun
  have hstart : Conc.start NewStorage (List.replicate 18446744073709551617 call) =
      ⟨NewStorage, List.replicate 18446744073709551617 call, [], []⟩ := rfl
  rw [hstart, hrun]
  refine ⟨⟨rfl, rfl⟩, ?_⟩
  show ¬ ((((newTaskReturns NewStorage
      ((List.replicate 18446744073709551617 call).map Call.op)).zip
        (List.replicate 18446744073709551617 call)).reverse ++ []).map Prod.fst).Nodup
  rw [List.append_nil, List.map_reverse, List.nodup_reverse, List.map_fst_zip]
  · rw [List.map_replicate]
    exact newTaskReturns_not_nodup call.name call.ownerID call.ownerUsername
  · rw [newTaskReturns_length, List.map_replicate, hlen]
    exact le_of_eq (countNewTask_replicate _ _ _ _)

/-! ## Error cases of `UnassignTask` and `ResolveTask` -/

/-- C2: for every store, task id and requester id, `UnassignTask` and
`ResolveTask` each return NotFound exactly when the id is not stored, NotYours
exactly when it is stored and the requester differs from the current
assignee id, and no error otherwise; whenever an error is returned the store
(map and id counter) is the one the call started from. -/
theorem unassign_resolve_error_kinds (s : Storage) (taskID requesterID : Int) :
    (((s.UnassignTask taskID requesterID).2.Err = some StoreError.errNotFound ↔
        s.get taskID = none) ∧
      ((s.UnassignTask taskID requesterID).2.Err = some StoreError.errNotYours ↔
        ∃ task, s.get taskID = some task ∧ task.assigneeID ≠ requesterID) ∧
      ((s.UnassignTask taskID requesterID).2.Err = none ↔
        ∃ task, s.get taskID = some task ∧ task.assigneeID = requesterID) ∧
      ((s.UnassignTask taskID requesterID).2.Err ≠ none →
        (s.UnassignTask taskID requesterID).1 = s)) ∧
    (((s.ResolveTask taskID requesterID).2.Err = some StoreError.errNotFound ↔
        s.get taskID = none) ∧
      ((s.ResolveTask taskID requesterID).2.Err = some StoreError.errNotYours ↔
        ∃ task, s.get taskID = some task ∧ task.assigneeID ≠ requesterID) ∧
      ((s.ResolveTask taskID requesterID).2.Err = none ↔
        ∃ task, s.get taskID = some task ∧ task.assigneeID = requesterID) ∧
      ((s.ResolveTask taskID requesterID).2.Err ≠ none →
        (s.ResolveTask taskID requesterID).1 = s)) := by
  cases hget : s.get taskID with
  | none =>
    rw [Storage.UnassignTask_of_get_none hget, Storage.ResolveTask_of_get_none hget]
    simp
  | some task =>
    by_cases hr : task.assigneeID = requesterID
    · rw [Storage.UnassignTask_of_eq hget hr, Storage.ResolveTask_of_eq hget hr]
      simp [hr]
    · rw [Storage.UnassignTask_of_ne hget hr, Storage.ResolveTask_of_ne hget hr]
      simp [hr]

theorem unassign_resolve_error_kinds_witness :
    ((run NewStorage [.newTask "a" 1 "u", .assignTask 1 2 "v"]).UnassignTask 1 3).1 =
      run NewStorage [.newTask "a" 1 "u", .assignTask 1 2 "v"] ∧
    ((run NewStorage [.newTask "a" 1 "u", .assignTask 1 2 "v"]).ResolveTask 1 3).1 =
      run NewStorage [.newTask "a" 1 "u", .assignTask 1 2 "v"] :=
  ⟨(unassign_resolve_error_kinds
      (run NewStorage [.newTask "a" 1 "u", .assignTask 1 2 "v"]) 1 3).1.2.2.2 (by decide),
   (unassign_resolve_error_kinds
      (run NewStorage [.newTask "a" 1 "u", .assignTask 1 2 "v"]) 1 3).2.2.2.2 (by decide)⟩

/-! ## `AssignTask` -/

/-- C5: for every store and every task id that is not stored, `AssignTask`
returns `TaskData{Err: errNotFound}` whatever the assignee id and username,
and the store (map and id counter) it leaves is the one it started from. -/
theorem assignTask_missing_id (s : Storage) (taskID assigneeID : Int)
    (assigneeUsername : String) (h : s.get taskID = none) :
    (s.AssignTask taskID assigneeID assigneeUsername).2 =
        { Err := some StoreError.errNotFound } ∧
      (s.AssignTask taskID assigneeID assigneeUsername).2.Err = some StoreError.errNotFound ∧
      (s.AssignTask taskID assigneeID assigneeUsername).1 = s := by
  rw [Storage.AssignTask_of_get_none h]
  exact ⟨rfl, rfl, rfl⟩

theorem assignTask_missing_id_witness :
    ((run NewStorage [.newTask "a" 1 "u"]).AssignTask 5 2 "v").2.Err =
        some StoreError.errNotFound ∧
      ((run NewStorage [.newTask "a" 1 "u"]).AssignTask 5 2 "v").1 =
        run NewStorage [.newTask "a" 1 "u"] :=
  (assignTask_missing_id (run NewStorage [.newTask "a" 1 "u"]) 5 2 "v" (by decide)).2

/-- C3: for every store in which `taskID` is stored, and every assignee id and
username, `AssignTask` succeeds whatever the current assignment, returns the
task name, the owner identity and the assignee id and username the record held
just before the call (in a reachable store these are 0 and the empty string
when the task was unassigned), and leaves under `taskID` the same record with
`assigned = true` and the assignee fields equal to the arguments. -/
theorem assignTask_existing (s : Storage) (taskID assigneeID : Int)
    (assigneeUsername : String) (task : Task) (h : s.get taskID = some task) :
    (s.AssignTask taskID assigneeID assigneeUsername).2.Err = none ∧
    (s.AssignTask taskID assigneeID assigneeUsername).2.Name = task.name ∧
    (s.AssignTask taskID assigneeID assigneeUsername).2.OwnerID = task.ownerID ∧
    (s.AssignTask taskID assigneeID assigneeUsername).2.OwnerUsername = task.ownerUsername ∧
    (s.AssignTask taskID assigneeID assigneeUsername).2.OldAssigneeID =
      some task.assigneeID ∧
    (s.AssignTask taskID assigneeID assigneeUsername).2.OldAssigneeUsername =
      some task.assigneeUsername ∧
    (Reachable s → task.assigned = false →
      (s.AssignTask taskID assigneeID assigneeUsername).2.OldAssigneeID = some 0 ∧
      (s.AssignTask taskID assigneeID assigneeUsername).2.OldAssigneeUsername = some "") ∧
    ∃ task1 : Task,
      (s.AssignTask taskID assigneeID assigneeUsername).1.get taskID = some task1 ∧
      task1.assigned = true ∧ task1.assigneeID = assigneeID ∧
      task1.assigneeUsername = assigneeUsername ∧
      task1.id = task.id ∧ task1.name = task.name ∧ task1.ownerID = task.ownerID ∧
      task1.ownerUsername = task.ownerUsername := by
  refine ⟨?_, ?_, ?_, ?_, ?_, ?_, ?_, task.assignTo assigneeID assigneeUsername, ?_,
    rfl, rfl, rfl, rfl, rfl, rfl, rfl⟩
  · rw [Storage.AssignTask_of_get_some h]
  · rw [Storage.AssignTask_of_get_some h]
  · rw [Storage.AssignTask_of_get_some h]
  · rw [Storage.AssignTask_of_get_some h]
  · rw [Storage.AssignTask_of_get_some h]
  · rw [Storage.AssignTask_of_get_some h]
  · intro hreach hfalse
    have hz := (hreach.inv taskID task h).2 hfalse
    rw [Storage.AssignTask_of_get_some h]
    simp only [hz.1, hz.2, and_self]
  · rw [Storage.get_AssignTask, if_pos rfl, h]
    rfl

theorem assignTask_existing_witness :
    ((run NewStorage [.newTask "a" 1 "u", .assignTask 1 2 "v"]).AssignTask 1 3 "w").2.Err
        = none ∧
      ((run NewStorage [.newTask "a" 1 "u", .assignTask 1 2 "v"]).AssignTask 1 3 "w").2.Name
        = "a" :=
  ⟨(assignTask_existing (run NewStorage [.newTask "a" 1 "u", .assignTask 1 2 "v"]) 1 3 "w"
      ((NewTask 1 "a" 1 "u").assignTo 2 "v") (by decide)).1,
   (assignTask_existing (run NewStorage [.newTask "a" 1 "u", .assignTask 1 2 "v"]) 1 3 "w"
      ((NewTask 1 "a" 1 "u").assignTo 2 "v") (by decide)).2.1⟩

/-! ## `UnassignTask` -/

/-- C10: for every store, task id and requester id for which `UnassignTask`
succeeds, the task stays stored and its record only has `assigneeID` set to 0,
`assigneeUsername` to the empty string and `assigned` to false; every other
key holds what it held, the list of stored ids and the id counter are the
same, and the result carries the name and owner identity of the task. -/
theorem unassignTask_success_frame (s : Storage) (taskID requesterID : Int)
    (h : (s.UnassignTask taskID requesterID).2.Err = none) :
    ∃ task : Task, s.get taskID = some task ∧ task.assigneeID = requesterID ∧
      (s.UnassignTask taskID requesterID).1.get taskID =
        some { task with assigned := false, assigneeID := 0, assigneeUsername := "" } ∧
      (∀ k, k ≠ taskID → (s.UnassignTask taskID requesterID).1.get k = s.get k) ∧
      (s.UnassignTask taskID requesterID).1.tasks.keys = s.tasks.keys ∧
      (s.UnassignTask taskID requesterID).1.nextID = s.nextID ∧
      (s.UnassignTask taskID requesterID).2 =
        { Name := task.name, OwnerID := task.ownerID, OwnerUsername := task.ownerUsername } := by
  obtain ⟨task, hget, hr⟩ := Storage.UnassignTask_ok h
  refine ⟨task, hget, hr, ?_, ?_, ?_, ?_, ?_⟩
  · rw [Storage.get_UnassignTask, if_pos rfl, hget]
    simp only [Option.map_some', hr, if_true]
    rfl
  · intro k hk
    rw [Storage.get_UnassignTask, if_neg hk]
  · rw [Storage.UnassignTask_of_eq hget hr]
    exact AList.keys_replace _ _ _
  · rw [Storage.UnassignTask_of_eq hget hr]
  · rw [Storage.UnassignTask_of_eq hget hr]

theorem unassignTask_success_frame_witness :
    ∃ task : Task,
      (run NewStorage [.newTask "a" 1 "u", .newTask "b" 1 "u", .assignTask 2 5 "v"]).get 2 =
        some task ∧ task.assigneeID = 5 ∧
      ((run NewStorage [.newTask "a" 1 "u", .newTask "b" 1 "u", .assignTask 2 5 "v"]).UnassignTask
          2 5).1.get 2 =
        some { task with assigned := false, assigneeID := 0, assigneeUsername := "" } :=
  (unassignTask_success_frame
    (run NewStorage [.newTask "a" 1 "u", .newTask "b" 1 "u", .assignTask 2 5 "v"]) 2 5
    (by decide)).imp fun _ hx => ⟨hx.1, hx.2.1, hx.2.2.1⟩

/-! ## `ResolveTask` -/

/-- C4: for every store, task id and requester id for which `ResolveTask`
succeeds, the returned name and owner identity are those of the record that
was stored under the id, the id is no longer a key of the map, every other key
holds exactly what it held and the counter is untouched; and when the store is
reachable, no task returned by `AllTasks()`, `OwnedTasks(o)` or
`AssignedTasks(a)` on the resulting store carries that id. -/
theorem resolveTask_success (s : Storage) (taskID requesterID : Int)
    (h : (s.ResolveTask taskID requesterID).2.Err = none) :
    ∃ task : Task, s.get taskID = some task ∧ task.assigneeID = requesterID ∧
      (s.ResolveTask taskID requesterID).2 =
        { Name := task.name, OwnerID := task.ownerID, OwnerUsername := task.ownerUsername } ∧
      (s.ResolveTask taskID requesterID).1.get taskID = none ∧
      taskID ∉ (s.ResolveTask taskID requesterID).1.tasks.keys ∧
      (∀ k, k ≠ taskID → (s.ResolveTask taskID requesterID).1.get k = s.get k) ∧
      (s.ResolveTask taskID requesterID).1.nextID = s.nextID ∧
      (Reachable s →
        (∀ t ∈ (s.ResolveTask taskID requesterID).1.AllTasks, t.id ≠ taskID) ∧
        (∀ o, ∀ t ∈ (s.ResolveTask taskID requesterID).1.OwnedTasks o, t.id ≠ taskID) ∧
        (∀ a, ∀ t ∈ (s.ResolveTask taskID requesterID).1.AssignedTasks a, t.id ≠ taskID)) := by
  obtain ⟨task, hget, hr⟩ := Storage.ResolveTask_ok h
  have hnone : (s.ResolveTask taskID requesterID).1.get taskID = none := by
    rw [Storage.get_ResolveTask, if_pos rfl, hget]
    simp [hr]
  refine ⟨task, hget, hr, ?_, hnone, ?_, ?_, ?_, ?_⟩
  · rw [Storage.ResolveTask_of_eq hget hr]
  · exact AList.lookup_eq_none.mp hnone
  · intro k hk
    rw [Storage.get_ResolveTask, if_neg hk]
  · rw [Storage.ResolveTask_of_eq hget hr]
  · intro hreach
    have hinv : (s.ResolveTask taskID requesterID).1.Inv :=
      (hreach.step (.resolveTask taskID requesterID)).inv
    have key : ∀ t, (∃ k, (s.ResolveTask taskID requesterID).1.get k = some t) →
        t.id ≠ taskID := by
      rintro t ⟨k, hk⟩ hid
      have hkid := (hinv k t hk).1
      rw [hid] at hkid
      subst hkid
      rw [hnone] at hk
      cases hk
    refine ⟨fun t ht => key t (Storage.mem_AllTasks.mp ht),
      fun o t ht => key t (Storage.mem_OwnedTasks.mp ht).1,
      fun a t ht => key t (Storage.mem_AssignedTasks.mp ht).1⟩

theorem resolveTask_success_witness :
    ∃ task : Task,
      (run NewStorage [.newTask "a" 1 "u", .newTask "b" 1 "u", .assignTask 2 5 "v"]).get 2 =
        some task ∧
      ((run NewStorage [.newTask "a" 1 "u", .newTask "b" 1 "u", .assignTask 2 5 "v"]).ResolveTask
          2 5).1.get 2 = none ∧
      ∀ t ∈ ((run NewStorage
          [.newTask "a" 1 "u", .newTask "b" 1 "u", .assignTask 2 5 "v"]).ResolveTask
            2 5).1.AllTasks, t.id ≠ 2 :=
  (resolveTask_success
    (run NewStorage [.newTask "a" 1 "u", .newTask "b" 1 "u", .assignTask 2 5 "v"]) 2 5
    (by decide)).imp fun _ hx =>
      ⟨hx.1, hx.2.2.2.1,
        (hx.2.2.2.2.2.2.2
          ⟨[.newTask "a" 1 "u", .newTask "b" 1 "u", .assignTask 2 5 "v"], rfl⟩).1⟩

/-! ## Unassigned tasks and the zero id -/

/-- C6, as stated, fails for the requester id 0: on the store holding one
freshly created (unassigned) task, `UnassignTask(1, 0)` and
`ResolveTask(1, 0)` both return no error. -/
theorem unassigned_task_requester_zero_accepted :
    (run NewStorage [.newTask "a" 1 "u"]).get 1 = some (NewTask 1 "a" 1 "u") ∧
    (NewTask 1 "a" 1 "u").assigned = false ∧
    ((run NewStorage [.newTask "a" 1 "u"]).UnassignTask 1 0).2.Err = none ∧
    ((run NewStorage [.newTask "a" 1 "u"]).ResolveTask 1 0).2.Err = none ∧
    ((run NewStorage [.newTask "a" 1 "u"]).ResolveTask 1 0).1.get 1 = none := by
  decide

/-- C6, amended: for every reachable store, every stored task that is
unassigned and every non-zero requester id, `UnassignTask` and `ResolveTask`
both return NotYours and leave the store as it was. -/
theorem unassigned_task_notYours (s : Storage) (hreach : Reachable s)
    (taskID requesterID : Int) (task : Task) (hget : s.get taskID = some task)
    (hun : task.assigned = false) (hr : requesterID ≠ 0) :
    s.UnassignTask taskID requesterID = (s, { Err := some StoreError.errNotYours }) ∧
    s.ResolveTask taskID requesterID = (s, { Err := some StoreError.errNotYours }) := by
  have hz : task.assigneeID = 0 := ((hreach.inv taskID task hget).2 hun).1
  have hne : task.assigneeID ≠ requesterID := by
    rw [hz]
    exact fun e => hr e.symm
  exact ⟨Storage.UnassignTask_of_ne hget hne, Storage.ResolveTask_of_ne hget hne⟩

theorem unassigned_task_notYours_witness :
    (run NewStorage [.newTask "a" 1 "u"]).UnassignTask 1 1 =
        (run NewStorage [.newTask "a" 1 "u"], { Err := some StoreError.errNotYours }) ∧
      (run NewStorage [.newTask "a" 1 "u"]).ResolveTask 1 1 =
        (run NewStorage [.newTask "a" 1 "u"], { Err := some StoreError.errNotYours }) :=
  unassigned_task_notYours (run NewStorage [.newTask "a" 1 "u"]) ⟨[.newTask "a" 1 "u"], rfl⟩
    1 1 (NewTask 1 "a" 1 "u") (by decide) (by decide) (by decide)

/-- C7, as stated, fails for the assignee id 0: on the store holding one
freshly created task, `AssignedTasks(0)` returns that task, whose `assigned`
flag is false. -/
theorem assignedTasks_zero_returns_unassigned :
    (run NewStorage [.newTask "a" 1 "u"]).AssignedTasks 0 = [NewTask 1 "a" 1 "u"] ∧
    (NewTask 1 "a" 1 "u").assigned = false := by
  decide

/-- C7, amended: for every reachable store and every non-zero assignee id,
`AssignedTasks(assigneeID)` has no repetition and its members are exactly the
stored tasks whose `assigneeID` equals the argument and whose `assigned` flag
is true. -/
theorem assignedTasks_nonzero (s : Storage) (hreach : Reachable s) (assigneeID : Int)
    (ha : assigneeID ≠ 0) :
    (s.AssignedTasks assigneeID).Nodup ∧
    ∀ t : Task, t ∈ s.AssignedTasks assigneeID ↔
      ((∃ k, s.get k = some t) ∧ t.assigneeID = assigneeID ∧ t.assigned = true) := by
  constructor
  · exact (nodup_AllTasks hreach.inv).filter _
  · intro t
    rw [Storage.mem_AssignedTasks]
    constructor
    · rintro ⟨⟨k, hk⟩, hid⟩
      refine ⟨⟨k, hk⟩, hid, ?_⟩
      cases hflag : t.assigned with
      | true => rfl
      | false =>
        have hz := ((hreach.inv k t hk).2 hflag).1
        rw [hid] at hz
        exact absurd hz ha
    · rintro ⟨hk, hid, _⟩
      exact ⟨hk, hid⟩

theorem assignedTasks_nonzero_witness :
    (((run NewStorage [.newTask "a" 1 "u", .newTask "b" 1 "u", .assignTask 2 5 "v"]).AssignedTasks
        5).Nodup) ∧
    ∀ t : Task,
      t ∈ (run NewStorage
          [.newTask "a" 1 "u", .newTask "b" 1 "u", .assignTask 2 5 "v"]).AssignedTasks 5 ↔
      ((∃ k, (run NewStorage
          [.newTask "a" 1 "u", .newTask "b" 1 "u", .assignTask 2 5 "v"]).get k = some t) ∧
        t.assigneeID = 5 ∧ t.assigned = true) :=
  assignedTasks_nonzero
    (run NewStorage [.newTask "a" 1 "u", .newTask "b" 1 "u", .assignTask 2 5 "v"])
    ⟨[.newTask "a" 1 "u", .newTask "b" 1 "u", .assignTask 2 5 "v"], rfl⟩ 5 (by decide)

/-! ## The `assigned` flag -/

/-- C8, as stated, fails when `AssignTask` is called with the assignee id 0:
after `NewTask("a", 1, "u")` and `AssignTask(1, 0, "")` the stored task has
`assigned = true` while its assignee id is 0 and its assignee username is
empty. -/
theorem assignTask_zero_id_sets_flag :
    (run NewStorage [.newTask "a" 1 "u", .assignTask 1 0 ""]).get 1 =
      some { id := 1, name := "a", ownerID := 1, ownerUsername := "u",
             assigneeID := 0, assigneeUsername := "", assigned := true } := by
  decide

/-- C8, amended: in every store reachable from `NewStorage()` by any sequence
of calls, every stored task with `assigned = false` has assignee id 0 and an
empty assignee username, so a non-zero assignee id implies `assigned = true`;
and when every `AssignTask` call of the sequence was given a non-zero assignee
id, `assigned = true` holds if and only if the assignee id is non-zero. -/
theorem assigned_flag_invariant (ops : List Op) (k : Int) (t : Task)
    (h : (run NewStorage ops).get k = some t) :
    (t.assigned = false → t.assigneeID = 0 ∧ t.assigneeUsername = "") ∧
    (t.assigneeID ≠ 0 → t.assigned = true) ∧
    (assignIdsNonzero ops → (t.assigned = true ↔ t.assigneeID ≠ 0)) := by
  have hinv := (inv_run inv_NewStorage ops k t h).2
  have hflag : t.assigneeID ≠ 0 → t.assigned = true := by
    intro hne
    cases hf : t.assigned with
    | true => rfl
    | false => exact absurd (hinv hf).1 hne
  exact ⟨hinv, hflag,
    fun hops => ⟨assignedNonzero_run assignedNonzero_NewStorage ops hops k t h, hflag⟩⟩

theorem assigned_flag_invariant_witness :
    ((NewTask 1 "a" 1 "u").assignTo 5 "v").assigned = true ↔
      ((NewTask 1 "a" 1 "u").assignTo 5 "v").assigneeID ≠ 0 :=
  (assigned_flag_invariant [.newTask "a" 1 "u", .assignTask 1 5 "v"] 1
    ((NewTask 1 "a" 1 "u").assignTo 5 "v") (by decide)).2.2
    (by
      intro taskID a u hmem
      simp only [List.mem_cons, List.mem_singleton, Op.assignTask.injEq, reduceCtorEq,
        false_or, List.mem_nil_iff, or_false] at hmem
      rw [hmem.2.1]
      decide)

/-! ## Name and owner never change -/

/-- C9, as stated, fails once the 64-bit counter has come round to a stored
id: after `2^64` `NewTask` calls the task created first is still stored under
the key 1 with name `a` and owner 1; the next `NewTask("b", 2, "v")` is handed
the id 1 again, and the task stored under the key 1 before and after that call
has changed its name and its owner. -/
theorem newTask_replaces_task_after_one_turn :
    (run NewStorage (List.replicate 18446744073709551616 (Op.newTask "a" 1 "u"))).get 1 =
      some (NewTask 1 "a" 1 "u") ∧
    (step (run NewStorage (List.replicate 18446744073709551616 (Op.newTask "a" 1 "u")))
        (Op.newTask "b" 2 "v")).1.get 1 = some (NewTask 1 "b" 2 "v") ∧
    (NewTask 1 "b" 2 "v").name ≠ (NewTask 1 "a" 1 "u").name ∧
    (NewTask 1 "b" 2 "v").ownerID ≠ (NewTask 1 "a" 1 "u").ownerID ∧
    (NewTask 1 "b" 2 "v").ownerUsername ≠ (NewTask 1 "a" 1 "u").ownerUsername := by
  obtain ⟨hn, hget⟩ := store_after_one_turn "a" 1 "u"
  refine ⟨hget, ?_, by decide, by decide, by decide⟩
  have hid : ((run NewStorage
      (List.replicate 18446744073709551616 (Op.newTask "a" 1 "u"))).NewTask "b" 2 "v").2 = 1 := by
    simp only [Storage.NewTask, hn]
    decide
  show ((run NewStorage
      (List.replicate 18446744073709551616 (Op.newTask "a" 1 "u"))).NewTask "b" 2 "v").1.get 1 = _
  rw [Storage.get_NewTask, hid, if_pos rfl]

/-- C9, amended: for every store and every call (`NewTask`, `AssignTask`,
`UnassignTask`, `ResolveTask`, `AllTasks`, `OwnedTasks`, `AssignedTasks`) with
arbitrary arguments, a task stored under a key both before and after the call
has the same id, name, owner id and owner username afterwards, with one
exception: a `NewTask` call that is handed an id that is already stored puts
its newly created record under that id; in a store reached from
`NewStorage()` that exception does not occur as long as at most `2^64`
`NewTask` calls have been made, this one included; and every stored task has
exactly the id returned by, and the name and owner passed to, a `NewTask`
call of the history. -/
theorem name_and_owner_immutable :
    (∀ (s : Storage) (op : Op) (k : Int) (t t1 : Task),
      s.get k = some t → (step s op).1.get k = some t1 →
        (t1.id = t.id ∧ t1.name = t.name ∧ t1.ownerID = t.ownerID ∧
          t1.ownerUsername = t.ownerUsername) ∨
        (∃ name o u, op = Op.newTask name o u ∧ k = (s.NewTask name o u).2 ∧
          t1 = NewTask k name o u)) ∧
    (∀ (ops : List Op) (op : Op) (k : Int) (t t1 : Task),
      (countNewTask ops : Int) < 18446744073709551616 →
      (run NewStorage ops).get k = some t →
      (step (run NewStorage ops) op).1.get k = some t1 →
        t1.id = t.id ∧ t1.name = t.name ∧ t1.ownerID = t.ownerID ∧
          t1.ownerUsername = t.ownerUsername) ∧
    (∀ (ops : List Op) (k : Int) (t : Task), (run NewStorage ops).get k = some t →
      ∃ pre name o u post, ops = pre ++ Op.newTask name o u :: post ∧
        ((run NewStorage pre).NewTask name o u).2 = k ∧
        t.id = k ∧ t.name = name ∧ t.ownerID = o ∧ t.ownerUsername = u) := by
  have unpack : ∀ {t t1 : Task}, t1.static = t.static →
      t1.id = t.id ∧ t1.name = t.name ∧ t1.ownerID = t.ownerID ∧
        t1.ownerUsername = t.ownerUsername := by
    intro t t1 hst
    simp only [Task.static, Prod.mk.injEq] at hst
    exact hst
  refine ⟨?_, ?_, ?_⟩
  · intro s op k t t1 hk hk1
    rcases step_get_origin hk1 with ⟨t0, h0, hst⟩ | hnew
    · rw [hk, Option.some.injEq] at h0
      subst h0
      exact Or.inl (unpack hst)
    · exact Or.inr hnew
  · intro ops op k t t1 hlt hk hk1
    rcases step_get_origin hk1 with ⟨t0, h0, hst⟩ | ⟨name, o, u, _, hkid, _⟩
    · rw [hk, Option.some.injEq] at h0
      subst h0
      exact unpack hst
    · have hfresh := next_id_fresh_one_turn ops hlt name o u
      rw [← hkid, hk] at hfresh
      cases hfresh
  · intro ops k t hk
    obtain ⟨pre, name, o, u, post, hops, hid, hst⟩ := stored_task_history ops k t hk
    simp only [Task.static, Prod.mk.injEq] at hst
    exact ⟨pre, name, o, u, post, hops, hid, hst⟩

theorem name_and_owner_immutable_witness :
    ((NewTask 1 "a" 7 "u").assignTo 2 "v").id = (NewTask 1 "a" 7 "u").id ∧
    ((NewTask 1 "a" 7 "u").assignTo 2 "v").name = (NewTask 1 "a" 7 "u").name ∧
    ((NewTask 1 "a" 7 "u").assignTo 2 "v").ownerID = (NewTask 1 "a" 7 "u").ownerID ∧
    ((NewTask 1 "a" 7 "u").assignTo 2 "v").ownerUsername =
      (NewTask 1 "a" 7 "u").ownerUsername :=
  name_and_owner_immutable.2.1 [.newTask "a" 7 "u"] (.assignTask 1 2 "v") 1
    (NewTask 1 "a" 7 "u") ((NewTask 1 "a" 7 "u").assignTo 2 "v")
    (by decide) (by decide) (by decide)

/-! ## Resolution and the id counter -/

/-- C11, as stated, fails once the 64-bit counter has wrapped around: task 1 is
created, assigned to user 2 and resolved by user 2; after `2^64` further
`NewTask` calls the last of them is handed the id 1 again, so a task with id
1 is stored and `AssignTask(1, ...)` succeeds instead of returning
NotFound. -/
theorem resolved_id_comes_back_after_wraparound :
    ((run NewStorage [.newTask "a" 1 "u", .assignTask 1 2 "v"]).ResolveTask 1 2).2.Err = none ∧
    (run ((run NewStorage [.newTask "a" 1 "u", .assignTask 1 2 "v"]).ResolveTask 1 2).1
        (List.replicate 18446744073709551616 (Op.newTask "b" 3 "w"))).get 1 =
      some (NewTask 1 "b" 3 "w") ∧
    ((run ((run NewStorage [.newTask "a" 1 "u", .assignTask 1 2 "v"]).ResolveTask 1 2).1
        (List.replicate 18446744073709551616 (Op.newTask "b" 3 "w"))).AssignTask
          1 4 "x").2.Err = none := by
  have hs1 : ((run NewStorage [.newTask "a" 1 "u", .assignTask 1 2 "v"]).ResolveTask 1 2).1 =
      { nextID := 1, tasks := ∅ } := by rfl
  have hsplit : List.replicate 18446744073709551616 (Op.newTask "b" 3 "w") =
      List.replicate 18446744073709551615 (Op.newTask "b" 3 "w") ++ [Op.newTask "b" 3 "w"] :=
    List.replicate_succ' _ _
  have hnext : (run { nextID := 1, tasks := ∅ }
      (List.replicate 18446744073709551615 (Op.newTask "b" 3 "w"))).nextID = 0 := by
    rw [nextID_run, countNewTask_replicate, if_neg (by decide)]
    decide
  have hget : (run { nextID := 1, tasks := ∅ }
      (List.replicate 18446744073709551616 (Op.newTask "b" 3 "w"))).get 1 =
      some (NewTask 1 "b" 3 "w") := by
    have h := get_run_snoc_newTask { nextID := 1, tasks := ∅ }
      (List.replicate 18446744073709551615 (Op.newTask "b" 3 "w")) "b" 3 "w"
    rw [hnext, ← hsplit] at h
    exact h
  rw [hs1]
  refine ⟨?_, hget, ?_⟩
  · decide
  · rw [Storage.AssignTask_of_get_some hget]

/-- C11, amended: once `ResolveTask` has succeeded for id `t`, in every store
reached afterwards by any further sequence of calls in which no `NewTask`
call is handed the id `t` again, no task with id `t` is stored, and
`AssignTask`, `UnassignTask` and `ResolveTask` on `t` all return NotFound
(leaving the store as it is); that is the case, in particular, whenever at
most `2^64` `NewTask` calls have been made in total, before and after the
resolution. -/
theorem resolved_id_stays_absent (pre post : List Op) (t r : Int)
    (hres : ((run NewStorage pre).ResolveTask t r).2.Err = none) :
    (t ∉ newTaskReturns ((run NewStorage pre).ResolveTask t r).1 post →
      (run NewStorage (pre ++ Op.resolveTask t r :: post)).Absent t) ∧
    ((countNewTask pre : Int) + (countNewTask post : Int) ≤ 18446744073709551616 →
      t ∉ newTaskReturns ((run NewStorage pre).ResolveTask t r).1 post ∧
      (run NewStorage (pre ++ Op.resolveTask t r :: post)).Absent t) := by
  obtain ⟨task, hget, hr⟩ := Storage.ResolveTask_ok hres
  have hrun : run NewStorage (pre ++ Op.resolveTask t r :: post) =
      run ((run NewStorage pre).ResolveTask t r).1 post := by
    rw [run_append]
    rfl
  have hnext1 : ((run NewStorage pre).ResolveTask t r).1.nextID =
      wrapInt64 (countNewTask pre : Int) := by
    rw [← nextID_run_NewStorage]
    exact nextID_step (run NewStorage pre) (Op.resolveTask t r)
  have hnone1 : ((run NewStorage pre).ResolveTask t r).1.get t = none := by
    rw [Storage.get_ResolveTask, if_pos rfl, hget]
    simp [hr]
  have habsent : t ∉ newTaskReturns ((run NewStorage pre).ResolveTask t r).1 post →
      (run NewStorage (pre ++ Op.resolveTask t r :: post)).Absent t := by
    intro hret
    apply absent_of_get_none
    rw [hrun]
    exact absent_run_of_not_returned hnone1 post hret
  refine ⟨habsent, fun hle => ?_⟩
  have hret : t ∉ newTaskReturns ((run NewStorage pre).ResolveTask t r).1 post := by
    intro hmem
    obtain ⟨j, hj, hjk⟩ := mem_newTaskReturns hmem
    obtain ⟨m, hm1, hm, hk⟩ := stored_key_handed_out pre t task hget
    rw [hnext1, add_assoc, wrapInt64_wrapInt64_add, hk] at hjk
    exact @wrapInt64_ne_of_lt (m : Int) ((countNewTask pre : Int) + ((j : Int) + 1))
      (by omega) (by omega) hjk
  exact ⟨hret, habsent hret⟩

theorem resolved_id_stays_absent_witness :
    (run NewStorage ([.newTask "a" 1 "u", .assignTask 1 2 "v"] ++
        Op.resolveTask 1 2 :: [.newTask "b" 3 "w", .assignTask 1 3 "w"])).get 1 = none :=
  ((resolved_id_stays_absent [.newTask "a" 1 "u", .assignTask 1 2 "v"]
    [.newTask "b" 3 "w", .assignTask 1 3 "w"] 1 2 (by decide)).2 (by decide)).2.1

/-! ## Assign, then unassign -/

/-- C19: for every store reachable from `NewStorage()`, every stored task `t`
that is unassigned, and every user id `u` and username `n`, `AssignTask(t, u,
n)` followed by `UnassignTask(t, u)` succeeds both times and yields a store
equal to the original one (same map, entry by entry, and same id counter). -/
theorem assign_unassign_roundtrip (s : Storage) (hreach : Reachable s) (t : Int)
    (task : Task) (hget : s.get t = some task) (hun : task.assigned = false)
    (u : Int) (n : String) :
    (s.AssignTask t u n).2.Err = none ∧
    ((s.AssignTask t u n).1.UnassignTask t u).2.Err = none ∧
    ((s.AssignTask t u n).1.UnassignTask t u).1 = s := by
  have hz := (hreach.inv t task hget).2 hun
  have hget1 : (s.AssignTask t u n).1.get t = some (task.assignTo u n) := by
    rw [Storage.get_AssignTask, if_pos rfl, hget]
    rfl
  have hback : (task.assignTo u n).cleared = task := by
    obtain ⟨id, name, ownerID, ownerUsername, assigneeID, assigneeUsername, assigned⟩ := task
    simp only at hun hz
    simp only [Task.assignTo, Task.cleared, hun, hz.1, hz.2]
  have hu := @Storage.UnassignTask_of_eq _ t _ hget1 u rfl
  refine ⟨?_, ?_, ?_⟩
  · rw [Storage.AssignTask_of_get_some hget]
  · rw [hu]
  · rw [hu]
    rw [Storage.AssignTask_of_get_some hget]
    have hrep := replace_replace_self s.tasks t task (task.assignTo u n) hget
    have hfields : ({ (task.assignTo u n) with
        assigned := false, assigneeID := 0, assigneeUsername := "" } : Task) = task := hback
    simp only [hfields]
    show ({ nextID := s.nextID,
            tasks := (s.tasks.replace t (task.assignTo u n)).replace t task } : Storage) = s
    rw [hrep]

theorem assign_unassign_roundtrip_witness :
    (((run NewStorage [.newTask "a" 1 "u", .newTask "b" 1 "u"]).AssignTask
        2 5 "v").1.UnassignTask 2 5).1 =
      run NewStorage [.newTask "a" 1 "u", .newTask "b" 1 "u"] :=
  (assign_unassign_roundtrip (run NewStorage [.newTask "a" 1 "u", .newTask "b" 1 "u"])
    ⟨[.newTask "a" 1 "u", .newTask "b" 1 "u"], rfl⟩ 2 (NewTask 2 "b" 1 "u")
    (by decide) (by decide) 5 "v").2.2

/-! ## Keys and the counter -/

/-- C20, as stated, fails once the counter has passed `2^63 - 1`: after `2^63`
`NewTask` calls the counter has wrapped around to `-2^63` and the last task
is stored under the key `-2^63`, which is below 1. -/
theorem key_below_one_after_wraparound :
    (run NewStorage (List.replicate 9223372036854775808 (Op.newTask "a" 1 "u"))).get
        (-9223372036854775808) =
      some (NewTask (-9223372036854775808) "a" 1 "u") ∧
    (run NewStorage (List.replicate 9223372036854775808 (Op.newTask "a" 1 "u"))).nextID =
      -9223372036854775808 ∧
    ¬ (1 : Int) ≤ -9223372036854775808 := by
  have hsplit : List.replicate 9223372036854775808 (Op.newTask "a" 1 "u") =
      List.replicate 9223372036854775807 (Op.newTask "a" 1 "u") ++ [Op.newTask "a" 1 "u"] :=
    List.replicate_succ' _ _
  have hnext : (run NewStorage
      (List.replicate 9223372036854775807 (Op.newTask "a" 1 "u"))).nextID =
        9223372036854775807 := by
    rw [nextID_run, countNewTask_replicate, if_neg (by decide)]
    decide
  have hget := get_run_snoc_newTask NewStorage
    (List.replicate 9223372036854775807 (Op.newTask "a" 1 "u")) "a" 1 "u"
  rw [hnext, ← hsplit] at hget
  have hw : wrapInt64 (9223372036854775807 + 1) = -9223372036854775808 := by decide
  rw [hw] at hget
  refine ⟨hget, ?_, by decide⟩
  rw [nextID_run, countNewTask_replicate, if_neg (by decide)]
  decide

/-- C20, amended: in every store reached from `NewStorage()` with fewer than
`2^63` `NewTask` calls, every map key `k` maps to a task whose id field equals
`k`, and `1 <= k <= counter`; consequently, while the number of creations
stays below `2^63`, `NewTask` never overwrites an existing task: the returned
id was not stored, all previously stored tasks are still stored unchanged,
the number of stored tasks grows by exactly one, and the task stored under
the returned id is unassigned with the given name and owner. -/
theorem keys_within_counter (ops : List Op)
    (hlt : (countNewTask ops : Int) < 9223372036854775808) :
    (∀ k task, (run NewStorage ops).get k = some task →
      task.id = k ∧ 1 ≤ k ∧ k ≤ (run NewStorage ops).nextID) ∧
    (∀ (name : String) (o : Int) (u : String),
      (countNewTask ops : Int) + 1 < 9223372036854775808 →
        ((run NewStorage ops).NewTask name o u).2 = (countNewTask ops : Int) + 1 ∧
        (run NewStorage ops).get ((run NewStorage ops).NewTask name o u).2 = none ∧
        (∀ k task, (run NewStorage ops).get k = some task →
          ((run NewStorage ops).NewTask name o u).1.get k = some task) ∧
        ((run NewStorage ops).NewTask name o u).1.AllTasks.length =
          (run NewStorage ops).AllTasks.length + 1 ∧
        ((run NewStorage ops).NewTask name o u).1.get
            ((run NewStorage ops).NewTask name o u).2 =
          some { id := ((run NewStorage ops).NewTask name o u).2, name := name,
                 ownerID := o, ownerUsername := u,
                 assigneeID := 0, assigneeUsername := "", assigned := false }) := by
  obtain ⟨hb, hn⟩ := keysBounded_run keysBounded_NewStorage ops
    (by simp only [NewStorage]; omega)
  have hn0 : (run NewStorage ops).nextID = (countNewTask ops : Int) := by
    rw [hn]
    simp [NewStorage]
  refine ⟨fun k task hk => ⟨(inv_run inv_NewStorage ops k task hk).1, hb.2 k task hk⟩, ?_⟩
  intro name o u hlt1
  have hfresh := next_id_fresh ops hlt1 name o u
  have hid : ((run NewStorage ops).NewTask name o u).2 = (countNewTask ops : Int) + 1 := by
    simp only [Storage.NewTask, hn0]
    exact wrapInt64_of_inRange _ (by omega) hlt1
  refine ⟨hid, hfresh, ?_, length_AllTasks_NewTask _ name o u hfresh, ?_⟩
  · intro k task hk
    rw [Storage.get_NewTask]
    split_ifs with hkid
    · rw [hkid, hfresh] at hk
      cases hk
    · exact hk
  · rw [Storage.get_NewTask, if_pos rfl]
    rfl

theorem keys_within_counter_witness :
    ((run NewStorage [.newTask "a" 1 "u", .newTask "b" 1 "u", .assignTask 2 5 "v",
        .resolveTask 2 5]).NewTask "c" 9 "z").2 = ((2 : Nat) : Int) + 1 :=
  ((keys_within_counter [.newTask "a" 1 "u", .newTask "b" 1 "u", .assignTask 2 5 "v",
      .resolveTask 2 5] (by decide)).2 "c" 9 "z" (by decide)).1

/-! ## The router: an end-to-end run -/

/-- C16: on a fresh store, `/new Fix bug` from user 1 (`alice`) creates the
task with id 1; `/tasks` from user 2 then replies `1. Fix bug by @alice`
followed by the action `/assign_1`; `/assign_1` from user 2 sends the
assigned-to-you reply to the chat of user 2 and exactly one notification, to
user 1; `/resolve_1` from user 2 sends the resolved reply to the chat of user
2 and exactly one notification, to user 1; and a later `/tasks` from any user
in any chat replies with the no-tasks message. -/
theorem scenario_fix_bug (chatID userID : Int) (username : String) :
    handleUpdate NewStorage (inbound 10 1 "alice" "/new Fix bug") =
      some (run NewStorage [.newTask "Fix bug" 1 "alice"],
        [⟨10, "Задача \"Fix bug\" создана, id=1"⟩]) ∧
    (run NewStorage [.newTask "Fix bug" 1 "alice"]).get 1 =
      some (NewTask 1 "Fix bug" 1 "alice") ∧
    handleUpdate (run NewStorage [.newTask "Fix bug" 1 "alice"]) (inbound 20 2 "bob" "/tasks") =
      some (run NewStorage [.newTask "Fix bug" 1 "alice"],
        [⟨20, "1. Fix bug by @alice\n/assign_1"⟩]) ∧
    handleUpdate (run NewStorage [.newTask "Fix bug" 1 "alice"])
        (inbound 20 2 "bob" "/assign_1") =
      some (run NewStorage [.newTask "Fix bug" 1 "alice", .assignTask 1 2 "bob"],
        [⟨20, "Задача \"Fix bug\" назначена на вас"⟩,
         ⟨1, "Задача \"Fix bug\" назначена на @bob"⟩]) ∧
    handleUpdate (run NewStorage [.newTask "Fix bug" 1 "alice", .assignTask 1 2 "bob"])
        (inbound 20 2 "bob" "/resolve_1") =
      some (run NewStorage
          [.newTask "Fix bug" 1 "alice", .assignTask 1 2 "bob", .resolveTask 1 2],
        [⟨20, "Задача \"Fix bug\" выполнена"⟩,
         ⟨1, "Задача \"Fix bug\" выполнена @bob"⟩]) ∧
    handleUpdate (run NewStorage
          [.newTask "Fix bug" 1 "alice", .assignTask 1 2 "bob", .resolveTask 1 2])
        (inbound chatID userID username "/tasks") =
      some (run NewStorage
          [.newTask "Fix bug" 1 "alice", .assignTask 1 2 "bob", .resolveTask 1 2],
        [⟨chatID, errNoTasks⟩]) := by
  refine ⟨rfl, rfl, rfl, rfl, rfl, rfl⟩

/-! ## The router: cutting the message -/

theorem cutAtSpace_eq_none {l : List Char} : cutAtSpace l = none ↔ ' ' ∉ l := by
  induction l with
  | nil => simp [cutAtSpace]
  | cons c cs ih =>
    by_cases hc : c = ' '
    · simp [cutAtSpace, hc]
    · have hne : ¬ ' ' = c := fun e => hc e.symm
      cases hcut : cutAtSpace cs with
      | none => simp [cutAtSpace, hc, hne, hcut, ih.mp hcut]
      | some p =>
        have hmem : ' ' ∈ cs := by
          by_contra hnot
          rw [ih.mpr hnot] at hcut
          cases hcut
        simp [cutAtSpace, hc, hcut, hmem]

theorem cutAtSpace_append {a : List Char} (ha : ' ' ∉ a) (b : List Char) :
    cutAtSpace (a ++ ' ' :: b) = some (a, b) := by
  induction a with
  | nil => simp [cutAtSpace]
  | cons c cs ih =>
    have hc : c ≠ ' ' := fun e => ha (by rw [e]; exact List.mem_cons_self _ _)
    have hcs : ' ' ∉ cs := fun hmem => ha (List.mem_cons_of_mem _ hmem)
    simp [cutAtSpace, hc, ih hcs]

theorem cutAtSpace_eq_some {l a b : List Char} (h : cutAtSpace l = some (a, b)) :
    l = a ++ ' ' :: b ∧ ' ' ∉ a := by
  induction l generalizing a with
  | nil => simp [cutAtSpace] at h
  | cons c cs ih =>
    by_cases hc : c = ' '
    · simp only [cutAtSpace, hc, if_true, Option.some.injEq, Prod.mk.injEq] at h
      obtain ⟨ha, hb⟩ := h
      subst ha hb hc
      simp
    · cases hcut : cutAtSpace cs with
      | none => simp [cutAtSpace, hc, hcut] at h
      | some p =>
        obtain ⟨a1, b1⟩ := p
        simp only [cutAtSpace, hc, if_false, hcut, Option.some.injEq, Prod.mk.injEq] at h
        obtain ⟨ha, hb⟩ := h
        subst ha hb
        obtain ⟨hl, hnot⟩ := ih hcut
        refine ⟨by rw [hl]; rfl, ?_⟩
        intro hmem
        rcases List.mem_cons.mp hmem with e | e
        · exact hc e.symm
        · exact hnot e

theorem SplitN_of_no_space {msg : String} (h : ' ' ∉ msg.data) : SplitN msg = [msg] := by
  simp only [SplitN, cutAtSpace_eq_none.mpr h]

theorem SplitN_append {cmd : String} (h : ' ' ∉ cmd.data) (arg : String) :
    SplitN (cmd ++ " " ++ arg) = [cmd, arg] := by
  have hdata : (cmd ++ " " ++ arg).data = cmd.data ++ ' ' :: arg.data := by
    simp [String.data_append]
  simp only [SplitN, hdata, cutAtSpace_append h]

/-- The list `parts` has one or two elements: `[command]` or
`[command, argument]`. -/
theorem SplitN_eq (msg : String) :
    SplitN msg = [command msg] ∧ argument msg = "" ∨
      SplitN msg = [command msg, argument msg] := by
  unfold command argument
  cases hcut : cutAtSpace msg.data with
  | none => exact Or.inl (by simp [SplitN, hcut])
  | some p =>
    obtain ⟨a, b⟩ := p
    exact Or.inr (by simp [SplitN, hcut])

theorem handleUpdate_eq_dispatch (s : Storage) (chatID userID : Int) (username msg : String) :
    handleUpdate s (inbound chatID userID username msg) =
      dispatch s chatID userID username (command msg) (argument msg) := by
  unfold handleUpdate inbound
  rcases SplitN_eq msg with ⟨h, harg⟩ | h
  · simp only [h, harg]
    rfl
  · simp only [h]
    rfl

theorem message_of_space {msg : String} (h : ' ' ∈ msg.data) :
    msg = command msg ++ " " ++ argument msg ∧ ' ' ∉ (command msg).data := by
  cases hcut : cutAtSpace msg.data with
  | none => exact absurd h (cutAtSpace_eq_none.mp hcut)
  | some p =>
    obtain ⟨a, b⟩ := p
    obtain ⟨hl, hnot⟩ := cutAtSpace_eq_some hcut
    have hc : command msg = String.mk a := by simp [command, SplitN, hcut]
    have ha : argument msg = String.mk b := by simp [argument, SplitN, hcut]
    rw [hc, ha]
    refine ⟨String.ext ?_, hnot⟩
    simp [String.data_append, hl]

/-- C13, as stated, fails for a run of more than one space and for whitespace
other than the space: on `/new`, two spaces, `x` the task created is named
` x` (with the second space), not `x`; on `/new`, a tab, `x` the whole text is
the command, no task is created and the reply is the wrong-format text. -/
theorem new_after_two_spaces_keeps_a_space :
    argument "/new  x" = " x" ∧
    handleUpdate NewStorage (inbound 10 1 "alice" "/new  x") =
      some (run NewStorage [.newTask " x" 1 "alice"],
        [⟨10, "Задача \" x\" создана, id=1"⟩]) ∧
    (run NewStorage [.newTask " x" 1 "alice"]).get 1 = some (NewTask 1 " x" 1 "alice") ∧
    command "/new\tx" = "/new\tx" ∧
    handleUpdate NewStorage (inbound 10 1 "alice" "/new\tx") =
      some (NewStorage, [⟨10, errWrongFormat⟩]) := by
  refine ⟨rfl, rfl, rfl, rfl, rfl⟩

/-- C13, amended: for every inbound text, `handleUpdate` cuts it at its first
space character: a text without a space is the command, with an empty
argument; otherwise the command is the text before the first space and the
argument is everything after that one space; in particular, for every
non-empty `T`, the text `/new`, one space, `T` creates a task whose name is
exactly `T`. -/
theorem handleUpdate_cuts_at_first_space :
    (∀ msg : String, ' ' ∉ msg.data → command msg = msg ∧ argument msg = "") ∧
    (∀ msg : String, ' ' ∈ msg.data →
      msg = command msg ++ " " ++ argument msg ∧ ' ' ∉ (command msg).data) ∧
    (∀ cmd arg : String, ' ' ∉ cmd.data →
      command (cmd ++ " " ++ arg) = cmd ∧ argument (cmd ++ " " ++ arg) = arg) ∧
    (∀ (s : Storage) (chatID userID : Int) (username msg : String),
      handleUpdate s (inbound chatID userID username msg) =
        dispatch s chatID userID username (command msg) (argument msg)) ∧
    (∀ (s : Storage) (chatID userID : Int) (username T : String), T ≠ "" →
      handleUpdate s (inbound chatID userID username ("/new " ++ T)) =
        some ((s.NewTask T userID username).1,
          [⟨chatID, "Задача \"" ++ T ++ "\" создана, id=" ++
            formatInt (s.NewTask T userID username).2⟩]) ∧
      (s.NewTask T userID username).1.get (s.NewTask T userID username).2 =
        some (NewTask (s.NewTask T userID username).2 T userID username)) := by
  refine ⟨?_, fun msg h => message_of_space h, ?_, handleUpdate_eq_dispatch, ?_⟩
  · intro msg h
    simp [command, argument, SplitN_of_no_space h]
  · intro cmd arg h
    simp [command, argument, SplitN_append h]
  · intro s chatID userID username T hT
    have hsplit : SplitN ("/new " ++ T) = ["/new", T] :=
      @SplitN_append "/new" (by decide) T
    have hcmd : command ("/new " ++ T) = "/new" := by simp [command, hsplit]
    have harg : argument ("/new " ++ T) = T := by simp [argument, hsplit]
    refine ⟨?_, ?_⟩
    · rw [handleUpdate_eq_dispatch, hcmd, harg]
      simp only [dispatch, hT, if_false]
      rfl
    · rw [Storage.get_NewTask, if_pos rfl]

theorem handleUpdate_cuts_at_first_space_witness :
    handleUpdate NewStorage (inbound 10 1 "alice" ("/new " ++ "Fix  the bug")) =
      some ((NewStorage.NewTask "Fix  the bug" 1 "alice").1,
        [⟨10, "Задача \"" ++ "Fix  the bug" ++ "\" создана, id=" ++
          formatInt (NewStorage.NewTask "Fix  the bug" 1 "alice").2⟩]) :=
  (handleUpdate_cuts_at_first_space.2.2.2.2 NewStorage 10 1 "alice" "Fix  the bug"
    (by decide)).1

/-! ## The router: the `switch` -/

/-- A command that starts with a given text has the same second character. -/
theorem second_char_of_HasPrefix {cmd pre : String} (h : HasPrefix cmd pre = true) {c : Char}
    (hc : pre.data[1]? = some c) : cmd.data[1]? = some c := by
  obtain ⟨rest, hrest⟩ := List.isPrefixOf_iff_prefix.mp h
  rw [← hrest, List.getElem?_append_left]
  · exact hc
  · by_contra hlen
    rw [List.getElem?_eq_none (by omega)] at hc
    cases hc

theorem ne_of_second_char {cmd lit : String} {c d : Char} (hc : cmd.data[1]? = some c)
    (hd : lit.data[1]? = some d) (hne : c ≠ d) : cmd ≠ lit := by
  intro e
  rw [e, hd, Option.some.injEq] at hc
  exact hne hc.symm

theorem not_HasPrefix_of_second_char {cmd pre : String} {c d : Char}
    (hc : cmd.data[1]? = some c) (hd : pre.data[1]? = some d) (hne : c ≠ d) :
    HasPrefix cmd pre = false := by
  cases h : HasPrefix cmd pre with
  | false => rfl
  | true =>
    have := second_char_of_HasPrefix h hd
    rw [hc, Option.some.injEq] at this
    exact absurd this hne

theorem dispatch_assign {s : Storage} {chatID userID : Int} {username cmd arg : String}
    (h : HasPrefix cmd "/assign_" = true) :
    dispatch s chatID userID username cmd arg =
      match parseTaskID cmd "/assign_" with
      | none => some (s, [⟨chatID, errWrongFormat⟩])
      | some taskID => handleAssign s chatID userID taskID username := by
  have hc := @second_char_of_HasPrefix cmd "/assign_" h 'a' rfl
  unfold dispatch
  rw [if_neg (@ne_of_second_char cmd "/tasks" 'a' 't' hc rfl (by decide)),
    if_neg (@ne_of_second_char cmd "/new" 'a' 'n' hc rfl (by decide)), if_pos h]

theorem dispatch_unassign {s : Storage} {chatID userID : Int} {username cmd arg : String}
    (h : HasPrefix cmd "/unassign_" = true) :
    dispatch s chatID userID username cmd arg =
      match parseTaskID cmd "/unassign_" with
      | none => some (s, [⟨chatID, errWrongFormat⟩])
      | some taskID => handleUnassign s chatID userID taskID := by
  have hc := @second_char_of_HasPrefix cmd "/unassign_" h 'u' rfl
  have h1 := @not_HasPrefix_of_second_char cmd "/assign_" 'u' 'a' hc rfl (by decide)
  unfold dispatch
  rw [if_neg (@ne_of_second_char cmd "/tasks" 'u' 't' hc rfl (by decide)),
    if_neg (@ne_of_second_char cmd "/new" 'u' 'n' hc rfl (by decide)),
    if_neg (by rw [h1]; decide), if_pos h]

theorem dispatch_resolve {s : Storage} {chatID userID : Int} {username cmd arg : String}
    (h : HasPrefix cmd "/resolve_" = true) :
    dispatch s chatID userID username cmd arg =
      match parseTaskID cmd "/resolve_" with
      | none => some (s, [⟨chatID, errWrongFormat⟩])
      | some taskID => handleResolve s chatID userID taskID username := by
  have hc := @second_char_of_HasPrefix cmd "/resolve_" h 'r' rfl
  have h1 := @not_HasPrefix_of_second_char cmd "/assign_" 'r' 'a' hc rfl (by decide)
  have h2 := @not_HasPrefix_of_second_char cmd "/unassign_" 'r' 'u' hc rfl (by decide)
  unfold dispatch
  rw [if_neg (@ne_of_second_char cmd "/tasks" 'r' 't' hc rfl (by decide)),
    if_neg (@ne_of_second_char cmd "/new" 'r' 'n' hc rfl (by decide)),
    if_neg (by rw [h1]; decide), if_neg (by rw [h2]; decide), if_pos h]

/-- C14: for every store and every inbound message whose command is `/new`
with a missing or empty argument, or starts with `/assign_`, `/unassign_` or
`/resolve_` and continues with a text that `strconv.ParseInt(_, 10, 64)`
rejects (the empty text is one), or is none of `/tasks`, `/new`, `/my`,
`/owner`, `/assign_*`, `/unassign_*`, `/resolve_*`, the router answers with
exactly one outbound message, the wrong-format text, to the chat of the
sender, sends nothing else and leaves the store (map and counter) as it
was. -/
theorem wrong_format_reply (s : Storage) (chatID userID : Int) (username msg : String)
    (h : (command msg = "/new" ∧ argument msg = "") ∨
      (HasPrefix (command msg) "/assign_" = true ∧
        parseTaskID (command msg) "/assign_" = none) ∨
      (HasPrefix (command msg) "/unassign_" = true ∧
        parseTaskID (command msg) "/unassign_" = none) ∨
      (HasPrefix (command msg) "/resolve_" = true ∧
        parseTaskID (command msg) "/resolve_" = none) ∨
      (command msg ≠ "/tasks" ∧ command msg ≠ "/new" ∧ command msg ≠ "/my" ∧
        command msg ≠ "/owner" ∧ HasPrefix (command msg) "/assign_" = false ∧
        HasPrefix (command msg) "/unassign_" = false ∧
        HasPrefix (command msg) "/resolve_" = false)) :
    handleUpdate s (inbound chatID userID username msg) =
      some (s, [⟨chatID, errWrongFormat⟩]) ∧
    parseTaskID "/assign_" "/assign_" = none ∧
    parseTaskID "/unassign_" "/unassign_" = none ∧
    parseTaskID "/resolve_" "/resolve_" = none := by
  refine ⟨?_, by decide, by decide, by decide⟩
  rw [handleUpdate_eq_dispatch]
  rcases h with ⟨hcmd, harg⟩ | ⟨hp, hparse⟩ | ⟨hp, hparse⟩ | ⟨hp, hparse⟩ |
    ⟨h1, h2, h3, h4, h5, h6, h7⟩
  · rw [hcmd, harg]
    rfl
  · rw [dispatch_assign hp, hparse]
  · rw [dispatch_unassign hp, hparse]
  · rw [dispatch_resolve hp, hparse]
  · unfold dispatch
    rw [if_neg h1, if_neg h2, if_neg (by rw [h5]; decide), if_neg (by rw [h6]; decide),
      if_neg (by rw [h7]; decide), if_neg h3, if_neg h4]

theorem wrong_format_reply_witness :
    handleUpdate (run NewStorage [.newTask "a" 1 "u"])
        (inbound 10 1 "alice" "/assign_1x now") =
      some (run NewStorage [.newTask "a" 1 "u"], [⟨10, errWrongFormat⟩]) :=
  (wrong_format_reply (run NewStorage [.newTask "a" 1 "u"]) 10 1 "alice" "/assign_1x now"
    (Or.inr (Or.inl (by decide)))).1

/-! ## The router: the handlers -/

theorem handleAssign_of_get_none {s : Storage} {taskID : Int} (h : s.get taskID = none)
    (chatID userID : Int) (username : String) :
    handleAssign s chatID userID taskID username =
      some (s, [⟨chatID, StoreError.errNotFound.Error⟩]) := by
  simp only [handleAssign, Storage.AssignTask_of_get_none h]

theorem handleAssign_of_get_some {s : Storage} {taskID : Int} {task : Task}
    (h : s.get taskID = some task) (chatID userID : Int) (username : String) :
    handleAssign s chatID userID taskID username =
      some ((s.AssignTask taskID userID username).1,
        ⟨chatID, "Задача \"" ++ task.name ++ "\" назначена на вас"⟩ ::
          (if task.assigneeID ≠ 0 ∧ task.assigneeID ≠ userID then
            [⟨task.assigneeID, "Задача \"" ++ task.name ++ "\" назначена на @" ++ username⟩]
          else if task.ownerID ≠ userID then
            [⟨task.ownerID, "Задача \"" ++ task.name ++ "\" назначена на @" ++ username⟩]
          else [])) := by
  simp only [handleAssign, Storage.AssignTask_of_get_some h]
  split_ifs <;> rfl

theorem handleAssign_isSome (s : Storage) (chatID userID taskID : Int) (username : String) :
    (handleAssign s chatID userID taskID username).isSome = true := by
  cases hget : s.get taskID with
  | none => rw [handleAssign_of_get_none hget]; rfl
  | some task => rw [handleAssign_of_get_some hget]; rfl

theorem handleUnassign_isSome (s : Storage) (chatID userID taskID : Int) :
    (handleUnassign s chatID userID taskID).isSome = true := by
  unfold handleUnassign
  dsimp only
  split <;> rfl

theorem handleResolve_isSome (s : Storage) (chatID userID taskID : Int) (username : String) :
    (handleResolve s chatID userID taskID username).isSome = true := by
  unfold handleResolve
  dsimp only
  split
  · rfl
  · split_ifs <;> rfl

theorem dispatch_isSome (s : Storage) (chatID userID : Int) (username cmd arg : String) :
    (dispatch s chatID userID username cmd arg).isSome = true := by
  unfold dispatch
  split_ifs
  · rfl
  · rfl
  · rfl
  · cases parseTaskID cmd "/assign_" with
    | none => rfl
    | some taskID => exact handleAssign_isSome _ _ _ _ _
  · cases parseTaskID cmd "/unassign_" with
    | none => rfl
    | some taskID => exact handleUnassign_isSome _ _ _ _
  · cases parseTaskID cmd "/resolve_" with
    | none => rfl
    | some taskID => exact handleResolve_isSome _ _ _ _ _
  · rfl
  · rfl
  · rfl

/-- The run-time faults of `handleUpdate`: it stops with a panic exactly when
the update has no message, or its message has no chat or no sender. -/
theorem handleUpdate_isSome_iff (s : Storage) (update : Update) :
    (handleUpdate s update).isSome = true ↔
      ∃ chatID senderID senderUsername text,
        update = inbound chatID senderID senderUsername text := by
  constructor
  · intro h
    obtain ⟨message⟩ := update
    cases message with
    | none => simp [handleUpdate] at h
    | some message =>
      obtain ⟨chat, sender, text⟩ := message
      cases chat with
      | none => simp [handleUpdate] at h
      | some chat =>
        cases sender with
        | none => simp [handleUpdate] at h
        | some sender => exact ⟨chat.ID, sender.ID, sender.UserName, text, rfl⟩
  · rintro ⟨chatID, senderID, senderUsername, text, rfl⟩
    rw [handleUpdate_eq_dispatch]
    exact dispatch_isSome _ _ _ _ _ _

/-- C17: for every store and every inbound `(chatID, senderID, senderUsername,
text)` with arbitrary text, `handleUpdate` (on the update that carries the
tuple) and the handlers it calls run to completion without a run-time fault
(the model returns `none` exactly where the Go code would panic);
specifically `parts` is never empty, so `parts[0]` is in range, and whenever
`AssignTask` returns a nil `Err` its `OldAssigneeID` pointer is set, so the
dereference in `handleAssign` is safe.  The only faults of `handleUpdate` are
the nil dereferences of `update.Message`, `.Chat` and `.From`, on updates
that carry no such tuple. -/
theorem handleUpdate_never_panics (s : Storage) (chatID senderID : Int)
    (senderUsername text : String) :
    (handleUpdate s (inbound chatID senderID senderUsername text)).isSome = true ∧
    (receive s (inbound chatID senderID senderUsername text)).isSome = true ∧
    0 < (SplitN text).length ∧
    (SplitN text)[0]? = some (command text) ∧
    (∀ (taskID : Int),
      (handleAssign s chatID senderID taskID senderUsername).isSome = true ∧
      (handleUnassign s chatID senderID taskID).isSome = true ∧
      (handleResolve s chatID senderID taskID senderUsername).isSome = true) ∧
    (∀ (taskID assigneeID : Int) (assigneeUsername : String),
      (s.AssignTask taskID assigneeID assigneeUsername).2.Err = none →
        (s.AssignTask taskID assigneeID assigneeUsername).2.OldAssigneeID.isSome = true ∧
        (s.AssignTask taskID assigneeID assigneeUsername).2.OldAssigneeUsername.isSome =
          true) ∧
    (∀ update : Update, (handleUpdate s update).isSome = true ↔
      ∃ c u n t, update = inbound c u n t) := by
  have hsome : (handleUpdate s (inbound chatID senderID senderUsername text)).isSome = true :=
    (handleUpdate_isSome_iff s _).mpr ⟨chatID, senderID, senderUsername, text, rfl⟩
  refine ⟨hsome, hsome, ?_, ?_, ?_, ?_, handleUpdate_isSome_iff s⟩
  · rcases SplitN_eq text with ⟨h, _⟩ | h <;> rw [h] <;> simp
  · rcases SplitN_eq text with ⟨h, _⟩ | h <;> rw [h] <;> rfl
  · exact fun taskID => ⟨handleAssign_isSome _ _ _ _ _, handleUnassign_isSome _ _ _ _,
      handleResolve_isSome _ _ _ _ _⟩
  · intro taskID assigneeID assigneeUsername herr
    cases hget : s.get taskID with
    | none =>
      rw [Storage.AssignTask_of_get_none hget] at herr
      cases herr
    | some task =>
      rw [Storage.AssignTask_of_get_some hget]
      exact ⟨rfl, rfl⟩

theorem handleUpdate_never_panics_witness :
    ((run NewStorage [.newTask "a" 1 "u"]).AssignTask 1 2 "bob").2.OldAssigneeID.isSome = true ∧
    ((run NewStorage [.newTask "a" 1 "u"]).AssignTask 1 2 "bob").2.OldAssigneeUsername.isSome =
      true :=
  (handleUpdate_never_panics (run NewStorage [.newTask "a" 1 "u"]) 20 2 "bob" "").2.2.2.2.2.1
    1 2 "bob" (by decide)

/-! ## The router: who is notified of an assignment -/

/-- C12, as stated, fails when the previous assignee is the owner: task 1 is
owned by user 1 and assigned to user 1; on `/assign_1` from user 2 the
previous assignee (1) is non-zero and differs from the requester (2), and the
one notification goes to user 1, who is the owner, so it is not true that
none goes to the owner. -/
theorem assign_notifies_owner_when_previous_assignee :
    (run NewStorage [.newTask "a" 1 "alice", .assignTask 1 1 "alice"]).get 1 =
      some { id := 1, name := "a", ownerID := 1, ownerUsername := "alice",
             assigneeID := 1, assigneeUsername := "alice", assigned := true } ∧
    handleUpdate (run NewStorage [.newTask "a" 1 "alice", .assignTask 1 1 "alice"])
        (inbound 20 2 "bob" "/assign_1") =
      some (run NewStorage
          [.newTask "a" 1 "alice", .assignTask 1 1 "alice", .assignTask 1 2 "bob"],
        [⟨20, "Задача \"a\" назначена на вас"⟩, ⟨1, "Задача \"a\" назначена на @bob"⟩]) := by
  refine ⟨rfl, rfl⟩

/-- C12, amended: for every successful `/assign_<id>` by requester `r` on a
task with owner `o` and previous assignee `p` (`p = 0` meaning none), the
router sends the success reply to the chat of the requester and then at most
one notification: if `p` is non-zero and differs from `r`, exactly one
notification is sent and it goes to `p` (the owner gets none unless `o = p`);
otherwise exactly one notification goes to `o` when `o` differs from `r`, and
none at all when `o` equals `r`. -/
theorem assign_notifications (s : Storage) (chatID r : Int) (username msg : String)
    (taskID : Int) (task : Task)
    (hcmd : HasPrefix (command msg) "/assign_" = true)
    (hparse : parseTaskID (command msg) "/assign_" = some taskID)
    (hget : s.get taskID = some task) :
    handleUpdate s (inbound chatID r username msg) =
      some ((s.AssignTask taskID r username).1,
        ⟨chatID, "Задача \"" ++ task.name ++ "\" назначена на вас"⟩ ::
          (if task.assigneeID ≠ 0 ∧ task.assigneeID ≠ r then
            [⟨task.assigneeID, "Задача \"" ++ task.name ++ "\" назначена на @" ++ username⟩]
          else if task.ownerID ≠ r then
            [⟨task.ownerID, "Задача \"" ++ task.name ++ "\" назначена на @" ++ username⟩]
          else [])) ∧
    (s.AssignTask taskID r username).2.Err = none := by
  refine ⟨?_, ?_⟩
  · rw [handleUpdate_eq_dispatch, dispatch_assign hcmd, hparse]
    exact handleAssign_of_get_some hget chatID r username
  · rw [Storage.AssignTask_of_get_some hget]

theorem assign_notifications_witness :
    handleUpdate (run NewStorage [.newTask "a" 1 "alice", .assignTask 1 3 "carol"])
        (inbound 20 2 "bob" "/assign_1") =
      some (((run NewStorage [.newTask "a" 1 "alice", .assignTask 1 3 "carol"]).AssignTask
          1 2 "bob").1,
        [⟨20, "Задача \"a\" назначена на вас"⟩, ⟨3, "Задача \"a\" назначена на @bob"⟩]) :=
  (assign_notifications (run NewStorage [.newTask "a" 1 "alice", .assignTask 1 3 "carol"])
    20 2 "bob" "/assign_1" 1
    { id := 1, name := "a", ownerID := 1, ownerUsername := "alice",
      assigneeID := 3, assigneeUsername := "carol", assigned := true }
    (by decide) (by decide) (by decide)).1

/-! ## The router: the task lists -/

theorem sortByID_perm (l : List Task) : (sortByID l).Perm l :=
  List.perm_insertionSort _ l

theorem sortByID_sorted (l : List Task) :
    (sortByID l).Pairwise (fun a b => a.id ≤ b.id) := by
  haveI : IsTotal Task (fun a b => a.ID ≤ b.ID) := ⟨fun a b => le_total a.ID b.ID⟩
  haveI : IsTrans Task (fun a b => a.ID ≤ b.ID) := ⟨fun _ _ _ h1 h2 => le_trans h1 h2⟩
  exact List.sorted_insertionSort (fun a b : Task => a.ID ≤ b.ID) l

/-- A list of tasks with pairwise distinct ids is sorted into strictly
ascending id order. -/
theorem sortByID_strict {l : List Task} (h : (l.map Task.id).Nodup) :
    (sortByID l).Pairwise (fun a b => a.id < b.id) := by
  have hnd : ((sortByID l).map Task.id).Nodup :=
    ((sortByID_perm l).map Task.id).nodup_iff.mpr h
  have hne : (sortByID l).Pairwise (fun a b => a.id ≠ b.id) := List.pairwise_map.mp hnd
  exact ((sortByID_sorted l).and hne).imp (fun hab => lt_of_le_of_ne hab.1 hab.2)

theorem nodup_ids_AllTasks {s : Storage} (h : s.Inv) : (s.AllTasks.map Task.id).Nodup := by
  have hkeys : s.AllTasks.map Task.id = s.tasks.keys := by
    simp only [Storage.AllTasks, AList.keys, List.keys, List.map_map]
    apply List.map_congr_left
    rintro ⟨k, t⟩ hmem
    exact (h k t (AList.mem_lookup_iff.mpr hmem)).1
  rw [hkeys]
  exact s.tasks.keys_nodup

theorem nodup_ids_OwnedTasks {s : Storage} (h : s.Inv) (o : Int) :
    ((s.OwnedTasks o).map Task.id).Nodup :=
  (nodup_ids_AllTasks h).sublist ((List.filter_sublist _).map Task.id)

theorem nodup_ids_AssignedTasks {s : Storage} (h : s.Inv) (a : Int) :
    ((s.AssignedTasks a).map Task.id).Nodup :=
  (nodup_ids_AllTasks h).sublist ((List.filter_sublist _).map Task.id)

theorem writeTasks_succ (entry : Task → String) (l : List Task) (i : Nat) (sb : String) :
    writeTasks entry l (i + 1) sb = String.intercalate.go sb "\n\n" (l.map entry) := by
  induction l generalizing i sb with
  | nil => rfl
  | cons t l ih =>
    simp only [writeTasks, List.map_cons, String.intercalate.go]
    rw [ih]
    simp

/-- The loop of the list builders writes the entries separated by an empty
line. -/
theorem writeTasks_eq_intercalate (entry : Task → String) (l : List Task) :
    writeTasks entry l 0 "" = String.intercalate "\n\n" (l.map entry) := by
  cases l with
  | nil => rfl
  | cons t l =>
    simp only [writeTasks, List.map_cons, String.intercalate]
    rw [writeTasks_succ]
    simp

theorem intercalate_go_data (acc sep : String) (l : List String) :
    ∃ rest : List Char, (String.intercalate.go acc sep l).data = acc.data ++ rest := by
  induction l generalizing acc with
  | nil => exact ⟨[], by simp [String.intercalate.go]⟩
  | cons a l ih =>
    obtain ⟨rest, hrest⟩ := ih (acc ++ sep ++ a)
    refine ⟨sep.data ++ a.data ++ rest, ?_⟩
    simp only [String.intercalate.go, hrest, String.data_append, List.append_assoc]

theorem entryHead_eq (t : Task) :
    entryHead t = formatInt t.id ++ ". " ++ t.name ++ " by @" ++ t.ownerUsername := rfl

theorem at_mem_entryHead (t : Task) (rest : String) : '@' ∈ (entryHead t ++ rest).data := by
  simp [entryHead, String.data_append]

/-- A list builder on a non-empty list of tasks never produces the no-tasks
text: its reply contains the character `@` of the first entry. -/
theorem writeTasks_ne_errNoTasks (entry : Task → String)
    (hentry : ∀ t, ∃ rest, entry t = entryHead t ++ rest) {l : List Task} (hl : l ≠ []) :
    writeTasks entry l 0 "" ≠ errNoTasks := by
  cases l with
  | nil => exact absurd rfl hl
  | cons t l =>
    intro heq
    have hmem : '@' ∈ (writeTasks entry (t :: l) 0 "").data := by
      rw [writeTasks_eq_intercalate]
      simp only [List.map_cons, String.intercalate]
      obtain ⟨rest, hrest⟩ := intercalate_go_data (entry t) "\n\n" (l.map entry)
      obtain ⟨tail, htail⟩ := hentry t
      rw [hrest, htail]
      exact List.mem_append_left _ (at_mem_entryHead t tail)
    rw [heq] at hmem
    revert hmem
    decide

/-- What every list builder does with the result `l` of its query. -/
theorem build_reply (entry : Task → String)
    (hentry : ∀ t, ∃ rest, entry t = entryHead t ++ rest) (l : List Task) :
    ((if l.length = 0 then errNoTasks else writeTasks entry (sortByID l) 0 "") = errNoTasks ↔
      l = []) ∧
    (l ≠ [] → (if l.length = 0 then errNoTasks else writeTasks entry (sortByID l) 0 "") =
      String.intercalate "\n\n" ((sortByID l).map entry)) := by
  cases l with
  | nil => simp
  | cons t l =>
    have hlen : ¬ (t :: l).length = 0 := by simp
    have hsorted : sortByID (t :: l) ≠ [] := by
      intro h
      have := (sortByID_perm (t :: l)).length_eq
      rw [h] at this
      simp at this
    simp only [hlen, if_false]
    refine ⟨⟨fun h => absurd h (writeTasks_ne_errNoTasks entry hentry hsorted),
      fun h => by cases h⟩, fun _ => writeTasks_eq_intercalate entry _⟩

theorem tasksEntry_head (userID : Int) (t : Task) :
    ∃ rest, tasksEntry userID t = entryHead t ++ rest :=
  ⟨_, String.append_assoc _ _ _⟩

theorem myTasksEntry_head (t : Task) : ∃ rest, myTasksEntry t = entryHead t ++ rest :=
  ⟨_, String.append_assoc _ _ _⟩

theorem ownedTasksEntry_head (t : Task) : ∃ rest, ownedTasksEntry t = entryHead t ++ rest :=
  ⟨_, String.append_assoc _ _ _⟩

/-- C15: for every reachable store and every viewer id, each of the replies
built for `/tasks`, `/my` and `/owner` equals the no-tasks text exactly when
its query result (all tasks, the tasks whose assignee id is the viewer, the
tasks owned by the viewer) is empty; otherwise it is the entries of the tasks
of that result, one per task, separated by an empty line and in strictly
ascending id order, and each entry begins with
`<id>. <name> by @<ownerUsername>`. -/
theorem list_replies (s : Storage) (hreach : Reachable s) (userID : Int) :
    ((buildTasks s userID = errNoTasks ↔ s.AllTasks = []) ∧
      (s.AllTasks ≠ [] → buildTasks s userID =
        String.intercalate "\n\n" ((sortByID s.AllTasks).map (tasksEntry userID))) ∧
      (sortByID s.AllTasks).Perm s.AllTasks ∧
      (sortByID s.AllTasks).Pairwise (fun a b => a.id < b.id)) ∧
    ((buildMyTasks s userID = errNoTasks ↔ s.AssignedTasks userID = []) ∧
      (s.AssignedTasks userID ≠ [] → buildMyTasks s userID =
        String.intercalate "\n\n" ((sortByID (s.AssignedTasks userID)).map myTasksEntry)) ∧
      (sortByID (s.AssignedTasks userID)).Perm (s.AssignedTasks userID) ∧
      (sortByID (s.AssignedTasks userID)).Pairwise (fun a b => a.id < b.id)) ∧
    ((buildOwnedTasks s userID = errNoTasks ↔ s.OwnedTasks userID = []) ∧
      (s.OwnedTasks userID ≠ [] → buildOwnedTasks s userID =
        String.intercalate "\n\n" ((sortByID (s.OwnedTasks userID)).map ownedTasksEntry)) ∧
      (sortByID (s.OwnedTasks userID)).Perm (s.OwnedTasks userID) ∧
      (sortByID (s.OwnedTasks userID)).Pairwise (fun a b => a.id < b.id)) ∧
    (∀ t : Task,
      (∃ rest, tasksEntry userID t =
        formatInt t.id ++ ". " ++ t.name ++ " by @" ++ t.ownerUsername ++ rest) ∧
      (∃ rest, myTasksEntry t =
        formatInt t.id ++ ". " ++ t.name ++ " by @" ++ t.ownerUsername ++ rest) ∧
      (∃ rest, ownedTasksEntry t =
        formatInt t.id ++ ". " ++ t.name ++ " by @" ++ t.ownerUsername ++ rest)) := by
  have hinv := hreach.inv
  have h1 := build_reply (tasksEntry userID) (tasksEntry_head userID) s.AllTasks
  have h2 := build_reply myTasksEntry myTasksEntry_head (s.AssignedTasks userID)
  have h3 := build_reply ownedTasksEntry ownedTasksEntry_head (s.OwnedTasks userID)
  refine ⟨⟨h1.1, h1.2, sortByID_perm _, sortByID_strict (nodup_ids_AllTasks hinv)⟩,
    ⟨h2.1, h2.2, sortByID_perm _, sortByID_strict (nodup_ids_AssignedTasks hinv userID)⟩,
    ⟨h3.1, h3.2, sortByID_perm _, sortByID_strict (nodup_ids_OwnedTasks hinv userID)⟩, ?_⟩
  intro t
  exact ⟨tasksEntry_head userID t, myTasksEntry_head t, ownedTasksEntry_head t⟩

theorem list_replies_witness :
    buildTasks (run NewStorage [.newTask "a" 1 "alice", .newTask "b" 2 "bob",
        .assignTask 1 2 "bob"]) 2 =
      String.intercalate "\n\n"
        ((sortByID (run NewStorage [.newTask "a" 1 "alice", .newTask "b" 2 "bob",
          .assignTask 1 2 "bob"]).AllTasks).map (tasksEntry 2)) :=
  (list_replies (run NewStorage [.newTask "a" 1 "alice", .newTask "b" 2 "bob",
      .assignTask 1 2 "bob"])
    ⟨[.newTask "a" 1 "alice", .newTask "b" 2 "bob", .assignTask 1 2 "bob"], rfl⟩ 2).1.2.1
    (by decide)

/-! ## Concurrent `NewTask` calls -/

/-- C18, as stated, fails beyond one turn of the 64-bit counter, in both of
its parts.  On the store reached by `2^64` `NewTask` calls (counter back at
0, task 1 still stored), one goroutine calling `NewTask("b", 2, "v")` is
handed the id 1 and its insert replaces the stored task 1, so that the store
holds as many tasks as before and not one more.  And with N = `2^64 + 1`
goroutines on a fresh store, in the interleaving that runs them one after the
other, every call returns and two calls have returned the same id. -/
theorem concurrent_newTask_replaces_after_one_turn :
    (((Conc.start (run NewStorage (List.replicate 18446744073709551616 (Op.newTask "a" 1 "u")))
        [⟨"b", 2, "v"⟩]).run [.add 0, .insert 0]).finished ∧
    ((Conc.start (run NewStorage (List.replicate 18446744073709551616 (Op.newTask "a" 1 "u")))
        [⟨"b", 2, "v"⟩]).run [.add 0, .insert 0]).returned = [(1, ⟨"b", 2, "v"⟩)] ∧
    (run NewStorage (List.replicate 18446744073709551616 (Op.newTask "a" 1 "u"))).get 1 =
      some (NewTask 1 "a" 1 "u") ∧
    ((Conc.start (run NewStorage (List.replicate 18446744073709551616 (Op.newTask "a" 1 "u")))
        [⟨"b", 2, "v"⟩]).run [.add 0, .insert 0]).store.get 1 = some (NewTask 1 "b" 2 "v") ∧
    ((Conc.start (run NewStorage (List.replicate 18446744073709551616 (Op.newTask "a" 1 "u")))
        [⟨"b", 2, "v"⟩]).run [.add 0, .insert 0]).store.AllTasks.length =
      (run NewStorage
        (List.replicate 18446744073709551616 (Op.newTask "a" 1 "u"))).AllTasks.length ∧
    ((Conc.start (run NewStorage (List.replicate 18446744073709551616 (Op.newTask "a" 1 "u")))
        [⟨"b", 2, "v"⟩]).run [.add 0, .insert 0]).store.AllTasks.length ≠
      (run NewStorage
        (List.replicate 18446744073709551616 (Op.newTask "a" 1 "u"))).AllTasks.length + 1) ∧
    (((Conc.start NewStorage (List.replicate 18446744073709551617 ⟨"a", 1, "u"⟩)).run
        (sequential 18446744073709551617)).finished ∧
    ¬ ((((Conc.start NewStorage (List.replicate 18446744073709551617 ⟨"a", 1, "u"⟩)).run
        (sequential 18446744073709551617)).returned).map Prod.fst).Nodup) := by
  refine ⟨?_, sequential_ids_repeat ⟨"a", 1, "u"⟩⟩
  obtain ⟨hn, hget⟩ := store_after_one_turn "a" 1 "u"
  have hid : ((run NewStorage
      (List.replicate 18446744073709551616 (Op.newTask "a" 1 "u"))).NewTask "b" 2 "v").2 = 1 := by
    simp only [Storage.NewTask, hn]
    decide
  have hlen := length_AllTasks_NewTask_of_stored
    (run NewStorage (List.replicate 18446744073709551616 (Op.newTask "a" 1 "u"))) "b" 2 "v"
    (NewTask 1 "a" 1 "u") (by rw [hid]; exact hget)
  rw [Conc.run_one_call]
  refine ⟨⟨rfl, rfl⟩, ?_, hget, ?_, hlen, ?_⟩
  · show [(_, _)] = _
    rw [hid]
  · show ((run NewStorage
      (List.replicate 18446744073709551616 (Op.newTask "a" 1 "u"))).NewTask "b" 2 "v").1.get 1 = _
    rw [Storage.get_NewTask, hid, if_pos rfl]
  · show ((run NewStorage (List.replicate 18446744073709551616
      (Op.newTask "a" 1 "u"))).NewTask "b" 2 "v").1.AllTasks.length ≠ _
    rw [hlen]
    omega

/-- C18, amended: for every N up to `2^64`, when N goroutines call `NewTask`
on the same store at the same time, under every interleaving of their atomic
actions (the `Add` on the counter and the locked insert, each call doing its
`Add` first) every call returns and each call receives an id different from
the ids of the other calls; and when none of the N ids handed out was a key
of the store before, which is the case whenever at most `2^64` `NewTask`
calls have been made on the store in total, these N included, the store
afterwards holds every task it held before, unchanged, the task of each call
under the id the call returned, and exactly N more tasks than before.  No
interleaving gets stuck: every partial one can be continued until all calls
have returned. -/
theorem concurrent_newTask_distinct_ids (ops : List Op) (calls : List Call)
    (events : List Event)
    (hN : (calls.length : Int) ≤ 18446744073709551616)
    (hdone : ((Conc.start (run NewStorage ops) calls).run events).finished) :
    ((((Conc.start (run NewStorage ops) calls).run events).returned).map Prod.fst).Nodup ∧
    ((((Conc.start (run NewStorage ops) calls).run events).returned).map Prod.snd).Perm calls ∧
    ((Conc.start (run NewStorage ops) calls).run events).returned.length = calls.length ∧
    ((run NewStorage ops).NextFree (countNewTask ops) calls.length →
      ((Conc.start (run NewStorage ops) calls).run events).store.AllTasks.length =
        (run NewStorage ops).AllTasks.length + calls.length ∧
      (∀ k task, (run NewStorage ops).get k = some task →
        ((Conc.start (run NewStorage ops) calls).run events).store.get k = some task) ∧
      (∀ p ∈ ((Conc.start (run NewStorage ops) calls).run events).returned,
        ((Conc.start (run NewStorage ops) calls).run events).store.get p.1 =
          some (NewTask p.1 p.2.name p.2.ownerID p.2.ownerUsername))) ∧
    ((countNewTask ops : Int) + (calls.length : Int) ≤ 18446744073709551616 →
      (run NewStorage ops).NextFree (countNewTask ops) calls.length) ∧
    (∀ partialRun : List Event, ∃ more : List Event,
      ((Conc.start (run NewStorage ops) calls).run (partialRun ++ more)).finished) := by
  have hids0 := Conc.idsInv_start (run NewStorage ops) (countNewTask ops) calls
    (nextID_run_NewStorage ops)
  obtain ⟨hperm, _, _, hnodup⟩ := Conc.idsInv_run hN hids0 events
  obtain ⟨hw, hp⟩ := hdone
  rw [hw, hp] at hperm
  rw [hp] at hnodup
  simp only [List.nil_append] at hperm hnodup
  have hcount : ((Conc.start (run NewStorage ops) calls).run events).returned.length =
      calls.length := by
    have := hperm.length_eq
    simpa using this
  refine ⟨hnodup, hperm, hcount, ?_, nextFree_one_turn ops calls.length, ?_⟩
  · intro hfree
    obtain ⟨horig, hret, _, hlen⟩ := Conc.storeInv_run hN hfree hids0
      (Conc.storeInv_start (run NewStorage ops) calls) events
    exact ⟨by rw [hlen, hcount], horig, hret⟩
  · intro partialRun
    obtain ⟨more, hmore⟩ := Conc.exists_completion _
      ((Conc.start (run NewStorage ops) calls).run partialRun) (le_refl _)
    exact ⟨more, by rw [Conc.run_events_append]; exact hmore⟩

theorem concurrent_newTask_distinct_ids_witness :
    ((((Conc.start (run NewStorage [.newTask "a" 1 "u"])
        [⟨"b", 2, "v"⟩, ⟨"c", 3, "w"⟩, ⟨"d", 4, "x"⟩]).run
          [.add 1, .add 1, .insert 0, .add 0, .insert 1, .insert 0]).returned).map
            Prod.fst).Nodup ∧
    ((Conc.start (run NewStorage [.newTask "a" 1 "u"])
        [⟨"b", 2, "v"⟩, ⟨"c", 3, "w"⟩, ⟨"d", 4, "x"⟩]).run
          [.add 1, .add 1, .insert 0, .add 0, .insert 1, .insert 0]).store.AllTasks.length =
      (run NewStorage [.newTask "a" 1 "u"]).AllTasks.length + 3 :=
  ⟨(concurrent_newTask_distinct_ids [.newTask "a" 1 "u"]
      [⟨"b", 2, "v"⟩, ⟨"c", 3, "w"⟩, ⟨"d", 4, "x"⟩]
      [.add 1, .add 1, .insert 0, .add 0, .insert 1, .insert 0]
      (by decide) ⟨rfl, rfl⟩).1,
   ((concurrent_newTask_distinct_ids [.newTask "a" 1 "u"]
      [⟨"b", 2, "v"⟩, ⟨"c", 3, "w"⟩, ⟨"d", 4, "x"⟩]
      [.add 1, .add 1, .insert 0, .add 0, .insert 1, .insert 0]
      (by decide) ⟨rfl, rfl⟩).2.2.2.1
      (nextFree_one_turn [.newTask "a" 1 "u"] 3 (by decide))).1⟩

end Taskbot
